import Mathlib

/-!
Verification of the JSON-Schema compiler in `marshmallow_jsonschema/base.py`.

The Python source is shallowly embedded: JSON values are the inductive `JVal`,
Python dicts are association lists with insertion-order semantics (`dset`
replaces in place or appends, mirroring `d[k] = v`), fallible code returns
`Except Err`, and the recursion through nested schema dumps is driven by an
explicit fuel parameter (`gsffCore`), since the Python recursion is unbounded.
-/

set_option autoImplicit false

namespace MJS

/-- A JSON-serializable Python value (the values stored in schema fragments,
field metadata and `Meta` configuration attributes). -/
inductive JVal where
  | null
  | bool (b : Bool)
  | int (n : Int)
  | str (s : String)
  | arr (xs : List JVal)
  | obj (kvs : List (String × JVal))
deriving Repr

/-- A Python dict with string keys, kept in insertion order. -/
abbrev Dict := List (String × JVal)

/-- `d[k] = v`: replace the value in place when the key exists, else append
(Python dict assignment keeps the key's original position). -/
def dset (d : Dict) (k : String) (v : JVal) : Dict :=
  match d with
  | [] => [(k, v)]
  | (k', v') :: rest => if k' = k then (k', v) :: rest else (k', v') :: dset rest k v

/-- `d.get(k)`: first (only) binding of a key. -/
def dget (d : Dict) (k : String) : Option JVal :=
  match d with
  | [] => none
  | (k', v') :: rest => if k' = k then some v' else dget rest k

/-- `a.update(b)`: set every binding of `b` into `a`, in `b`'s order. -/
def dupdate (a b : Dict) : Dict :=
  b.foldl (fun acc kv => dset acc kv.1 kv.2) a

/-- Python `==` on the value shapes the source compares.  `bool` is a
subtype of `int` in Python, so `True == 1` and `False == 0` hold.  The
source only ever compares values against the scalar constants `True`,
`False`, `RAISE`, `EXCLUDE` and `INCLUDE`, so equality between two
composite values is never exercised; the catch-all returns `false`,
which agrees with Python for every composite-versus-scalar comparison. -/
def pyEq : JVal → JVal → Bool
  | .null, .null => true
  | .bool a, .bool b => a == b
  | .int a, .int b => a == b
  | .str a, .str b => a == b
  | .int m, .bool b => m == (if b then (1 : Int) else 0)
  | .bool b, .int n => (if b then (1 : Int) else 0) == n
  | _, _ => false

/-- The error conditions of the compiler: `UnsupportedValueError` raises from
`_get_pytype` and `_resolve_additional_properties`, `registryError` models a
failed `marshmallow.class_registry.get_class` lookup, and `outOfFuel` marks
exhaustion of the explicit recursion fuel (the Python code would still be
recursing). -/
inductive Err where
  | outOfFuel
  | unsupportedValue (msg : String)
  | registryError
deriving DecidableEq, Repr

/-- Parameters carried by a validation constraint (`marshmallow.validate`
objects): `Length(min, max, equal)`, `OneOf(choices)`,
`Range(min, max, min_inclusive-negated flags)`. -/
inductive VParams where
  | length (min max equal : Option Int)
  | oneOf (choices : List JVal)
  | range (min max : Option Int) (minExclusive maxExclusive : Bool)
  | other
deriving Repr

/-- A validator attached to a field.  `cls` is the runtime class
(`validator.__class__.__name__`); `ancestors` are the remaining classes of
its MRO, so a strict subclass of `Length` has `cls ≠ "Length"` but
`"Length" ∈ ancestors`. -/
structure Validator where
  cls : String
  ancestors : List String
  params : VParams
deriving Repr

/-- Modelled from the spec: `validation.handle_length` lives in
`validation.py`, which is not under `src/`.  Per §4.2 the transform inspects
the target type already present in the fragment: a string fragment gets
`minLength`/`maxLength`, an array fragment gets `minItems`/`maxItems`, and
an exact-length constraint sets both keys to `equal`. -/
def handle_length (schema : Dict) (v : Validator) : Dict :=
  let keys : Option (String × String) :=
    match dget schema "type" with
    | some (.str "string") => some ("minLength", "maxLength")
    | some (.str "array") => some ("minItems", "maxItems")
    | _ => none
  match keys, v.params with
  | some (minK, maxK), .length mn mx eq =>
    let s := match mn with | some n => dset schema minK (.int n) | none => schema
    let s := match mx with | some n => dset s maxK (.int n) | none => s
    match eq with
    | some n => dset (dset s minK (.int n)) maxK (.int n)
    | none => s
  | _, _ => schema

/-- Modelled from the spec: `validation.handle_one_of` (file not under
`src/`).  Per §4.2 it sets `enum` to the ordered sequence of choices. -/
def handle_one_of (schema : Dict) (v : Validator) : Dict :=
  match v.params with
  | .oneOf choices => dset schema "enum" (.arr choices)
  | _ => schema

/-- Modelled from the spec: `validation.handle_range` (file not under
`src/`).  Per §4.2 it sets `minimum`/`maximum` from the bounds and emits
`exclusiveMinimum`/`exclusiveMaximum` as booleans alongside a bound the
constraint marks exclusive (draft-07 semantics). -/
def handle_range (schema : Dict) (v : Validator) : Dict :=
  match v.params with
  | .range mn mx exMin exMax =>
    let s := match mn with
      | some n =>
        let s := dset schema "minimum" (.int n)
        if exMin then dset s "exclusiveMinimum" (.bool true) else s
      | none => schema
    match mx with
    | some n =>
      let s := dset s "maximum" (.int n)
      if exMax then dset s "exclusiveMaximum" (.bool true) else s
    | none => s
  | _ => schema

/-- The keys of the `FIELD_VALIDATORS` dict (base.py lines 47–51):
recognized validator classes, looked up by the validator's exact runtime
class. -/
def FIELD_VALIDATOR_KEYS : List String := ["Length", "OneOf", "Range"]

/-- The non-recursive attributes of a marshmallow field, as read by the
compiler.  `classes` is the field's MRO with its own class first, so
`issubclass(field.__class__, C)` is `C ∈ classes`.  `jtm` is the result of
`field._jsonschema_type_mapping()` when that attribute exists; the same
override may instead appear under the metadata key
`"_jsonschema_type_mapping"`.  `nestedName` is the referenced schema's
registry name for `Nested` fields (resolved through
`marshmallow.class_registry.get_class`). -/
structure FieldData where
  name : String
  /-- `field.attribute` (`attribute` is reserved in Lean). -/
  attr : Option String
  required : Bool
  dump_only : Bool
  default : Option JVal
  metadata : Dict
  validators : List Validator
  classes : List String
  jtm : Option Dict
  nestedName : Option String
  many : Bool
  only : Option (List String)
  exclude : List String

/-- A field; `inner` is the element field of a `List` field
(`compat.list_inner`, i.e. `field.inner` / `field.container`). -/
inductive Field where
  | mk (fd : FieldData) (inner : Option Field)

def Field.fd : Field → FieldData
  | .mk d _ => d

def Field.inner : Field → Option Field
  | .mk _ i => i

/-- A marshmallow schema as the compiler reads it: class name, the bound
`fields` dict (attribute name → field), and the `Meta` attributes consumed
by `_resolve_additional_properties`. -/
structure SchemaDesc where
  name : String
  fields : List (String × Field)
  additional_properties : Option JVal
  unknown : Option JVal

/-- The marshmallow class registry (`class_registry.get_class`), an external
collaborator: schema name → schema. -/
abbrev Env := List (String × SchemaDesc)

def envLookup (env : Env) (name : String) : Option SchemaDesc :=
  match env with
  | [] => none
  | (k, s) :: rest => if k = name then some s else envLookup rest name

/-- Schema-instance cache of compiled definitions
(`self._nested_schema_classes`). -/
abbrev Cache := Dict

/-- The python types serving as keys of `TYPE_MAP` (base.py lines 25–44). -/
inductive PyType where
  | pdict | plist | ptime | ptimedelta | pdatetime | pdate | puuid
  | pstr | pbytes | pdecimal | pset | ptuple | pfloat | pint | pbool
deriving DecidableEq, Repr

/-- `TYPE_MAP` (base.py lines 25–44): python type → base fragment. -/
def TYPE_MAP : PyType → Dict
  | .pdict => [("type", .str "object")]
  | .plist => [("type", .str "array")]
  | .ptime => [("type", .str "string"), ("format", .str "time")]
  | .ptimedelta => [("type", .str "string")]
  | .pdatetime => [("type", .str "string"), ("format", .str "date-time")]
  | .pdate => [("type", .str "string"), ("format", .str "date")]
  | .puuid => [("type", .str "string"), ("format", .str "uuid")]
  | .pstr => [("type", .str "string")]
  | .pbytes => [("type", .str "string")]
  | .pdecimal => [("type", .str "number"), ("format", .str "decimal")]
  | .pset => [("type", .str "array")]
  | .ptuple => [("type", .str "array")]
  | .pfloat => [("type", .str "number"), ("format", .str "float")]
  | .pint => [("type", .str "number"), ("format", .str "integer")]
  | .pbool => [("type", .str "boolean")]

/-- The value side of the mapping produced by `_get_default_mapping`:
either a python type (handled by `_from_python_type`) or the method name
`"_from_nested_schema"` (dispatched via `getattr` when the value is a
string). -/
inductive PyTarget where
  | ty (p : PyType)
  | method
deriving DecidableEq, Repr

/-- The mapping built by `_get_default_mapping` (base.py lines 90–104): the
inverse of `obj.TYPE_MAPPING` — data of the external marshmallow library —
updated with the source's explicit entries (`Email`, `Dict`, `Url`, `List`,
`DateTime`, `Nested`, `Number`).  As in marshmallow, specialized field
classes appear before their superclasses, which is what makes the
first-match subclass walk of `_get_pytype` resolve e.g. `Integer` before
`Number`. -/
def defaultMapping : List (String × PyTarget) :=
  [("UUID", .ty .puuid), ("Time", .ty .ptime), ("Date", .ty .pdate),
   ("TimeDelta", .ty .ptimedelta), ("Email", .ty .pstr), ("Url", .ty .pstr),
   ("Integer", .ty .pint), ("Boolean", .ty .pbool), ("Float", .ty .pfloat),
   ("Decimal", .ty .pdecimal), ("String", .ty .pstr),
   ("DateTime", .ty .pdatetime), ("List", .ty .plist), ("Dict", .ty .pdict),
   ("Nested", .method), ("Number", .ty .pdecimal)]

/-- `_get_pytype` (base.py lines 152–157): walk the mapping in order and
return the target of the first entry whose class the field's class is a
subclass of; raise `UnsupportedValueError` when nothing matches. -/
def getPytype (f : Field) : List (String × PyTarget) → Except Err PyTarget
  | [] => .error (.unsupportedValue "unsupported field type")
  | (cls, t) :: rest => if cls ∈ f.fd.classes then .ok t else getPytype f rest

/-- `_resolve_additional_properties` (base.py lines 54–74). -/
def resolve_additional_properties (s : SchemaDesc) : Except Err JVal :=
  match s.additional_properties with
  | some v =>
    if pyEq v (.bool true) || pyEq v (.bool false) then .ok v
    else .error (.unsupportedValue "`additional_properties` must be either True or False")
  | none =>
    match s.unknown with
    | none => .ok (.bool false)
    | some u =>
      if pyEq u (.str "raise") || pyEq u (.str "exclude") then .ok (.bool false)
      else if pyEq u (.str "include") then .ok (.bool true)
      else .error (.unsupportedValue "Unknown value for `unknown`")

/-- `field.attribute or field.name` (base.py line 128).  A `None` attribute
falls back to the external name (an empty-string attribute, also falsy in
Python, is not modelled). -/
def titleOf (f : Field) : String :=
  match f.fd.attr with
  | some a => a
  | none => f.fd.name

/-- `field.metadata.get("metadata", {})` (base.py lines 140 and 219); a
non-dict value stored under `"metadata"` would make the subsequent
`.update` raise in Python and is not modelled. -/
def nestedMetaOf (f : Field) : Dict :=
  match dget f.fd.metadata "metadata" with
  | some (.obj m) => m
  | _ => []

/-- The merged metadata visible after
`metadata = field.metadata.get("metadata", {}); metadata.update(field.metadata)`
(base.py lines 140–141 and 219–220): the nested sub-mapping overlaid with
every top-level entry, top-level winning. -/
def effMeta (f : Field) : Dict :=
  dupdate (nestedMetaOf f) f.fd.metadata

/-- The copy loop of base.py lines 143–146 and 222–225: every merged
metadata entry except the literal key `"metadata"` is written into the
fragment. -/
def copyMeta (js md : Dict) : Dict :=
  md.foldl (fun acc kv => if kv.1 = "metadata" then acc else dset acc kv.1 kv.2) js

/-- The recursive compilation hook: `self._get_schema_for_field` as a
function of the registry, current schema, field and definitions cache. -/
abbrev GFun := Env → SchemaDesc → Field → Cache → Except Err (JVal × Cache)

/-- The cache-free part of `_from_python_type` (base.py lines 126–146):
title, `TYPE_MAP` entries, `readonly`, `default`, metadata merge — in
source order. -/
def fpTitle (f : Field) : Dict :=
  [("title", .str (titleOf f))]

/-- After the `TYPE_MAP` copy loop (base.py lines 130–131). -/
def fpAfterType (f : Field) (p : PyType) : Dict :=
  dupdate (fpTitle f) (TYPE_MAP p)

/-- After the `readonly` step (base.py lines 133–134). -/
def fpAfterReadonly (f : Field) (p : PyType) : Dict :=
  if f.fd.dump_only then dset (fpAfterType f p) "readonly" (.bool true)
  else fpAfterType f p

/-- After the `default` step (base.py lines 136–137). -/
def fpAfterDefault (f : Field) (p : PyType) : Dict :=
  match f.fd.default with
  | some d => dset (fpAfterReadonly f p) "default" d
  | none => fpAfterReadonly f p

def fromPythonBase (f : Field) (p : PyType) : Dict :=
  copyMeta (fpAfterDefault f p) (effMeta f)

/-- `_from_python_type` (base.py lines 126–150).  For a `List` field the
item type is resolved by a recursive `_get_schema_for_field` call on
`list_inner(field)` and stored under `items`. -/
def fromPythonTypeAux (g : GFun) (env : Env) (obj : SchemaDesc) (f : Field) (p : PyType)
    (cache : Cache) : Except Err (JVal × Cache) :=
  let js := fromPythonBase f p
  if "List" ∈ f.fd.classes then
    match f.inner with
    | some fi =>
      match g env obj fi cache with
      | .ok (vi, c₁) => .ok (.obj (dset js "items" vi), c₁)
      | .error e => .error e
    | none => .error (.unsupportedValue "list field without inner field")
  else .ok (.obj js, cache)

/-- One step of the validator loop (base.py lines 173–177): a validator is
applied only when its exact runtime class is a key of `FIELD_VALIDATORS`;
any other validator leaves the fragment untouched. -/
def applyValidator (_f : Field) (schema : JVal) (v : Validator) : JVal :=
  if v.cls ∈ FIELD_VALIDATOR_KEYS then
    match schema with
    | .obj d =>
      .obj (if v.cls = "Length" then handle_length d v
            else if v.cls = "OneOf" then handle_one_of d v
            else handle_range d v)
    | s => s
  else schema

/-- The full validator loop of `_get_schema_for_field` (base.py lines
172–177), applied in declaration order. -/
def applyValidators (f : Field) (schema : JVal) : JVal :=
  f.fd.validators.foldl (applyValidator f) schema

/-- Field projection performed by `nested(only=only, exclude=exclude)`
(base.py lines 189–192): keep only the `only` names (when given), then drop
the `exclude` names. -/
def projectFields (fs : List (String × Field)) (onlyN : Option (List String))
    (excludeN : List String) : List (String × Field) :=
  let fs₁ : List (String × Field) := match onlyN with
    | some names => fs.filter (fun kf => kf.1 ∈ names)
    | none => fs
  fs₁.filter (fun kf => kf.1 ∉ excludeN)

/-- Lexicographic code-point comparison of strings — Python's ordering on
`str`, which `sorted` uses — written over the character lists so that it
evaluates by kernel reduction. -/
def charListLe : List Char → List Char → Bool
  | [], _ => true
  | _ :: _, [] => false
  | c :: cs, d :: ds =>
    if c.val.toNat < d.val.toNat then true
    else if d.val.toNat < c.val.toNat then false
    else charListLe cs ds

def strLe (a b : String) : Bool :=
  charListLe a.data b.data

/-- `sorted(obj.fields.items())` — insertion sort on the attribute-name
keys (unique, being dict keys). -/
def insertField (a : String × Field) : List (String × Field) → List (String × Field)
  | [] => [a]
  | b :: bs => if strLe a.1 b.1 then a :: b :: bs else b :: insertField a bs

def sortFields (fs : List (String × Field)) : List (String × Field) :=
  fs.foldr insertField []

/-- `get_required` (base.py lines 116–124): the external names of the
required fields in sorted attribute-name order, or `missing` (here `none`,
omitting the key) when the list is empty. -/
def requiredNames (obj : SchemaDesc) : List String :=
  ((sortFields obj.fields).filter (fun kf => kf.2.fd.required)).map
    (fun kf => kf.2.fd.name)

def getRequired (obj : SchemaDesc) : Option (List String) :=
  if (requiredNames obj).isEmpty then none else some (requiredNames obj)

/-- `get_properties` (base.py lines 106–114): fragments for the sorted
fields, keyed by `field.name`, threading the definitions cache. -/
def getPropsAux (g : GFun) (env : Env) (obj : SchemaDesc) :
    List (String × Field) → Dict → Cache → Except Err (Dict × Cache)
  | [], props, cache => .ok (props, cache)
  | (_, f) :: rest, props, cache =>
    match g env obj f cache with
    | .ok (schema, c₁) => getPropsAux g env obj rest (dset props f.fd.name schema) c₁
    | .error e => .error e

/-- The marshmallow dump of a `JSONSchema` instance over `obj` before the
`wrap` post-dump step: the declared fields `properties`, `type`, `required`
in order, with `required` omitted when `get_required` returned `missing`. -/
def dumpDataAux (g : GFun) (env : Env) (obj : SchemaDesc) (cache : Cache) :
    Except Err (Dict × Cache) :=
  match getPropsAux g env obj (sortFields obj.fields) [] cache with
  | .ok (props, c₁) =>
    let data : Dict := [("properties", .obj props), ("type", .str "object")]
    let data := match getRequired obj with
      | some req => data ++ [("required", .arr (req.map .str))]
      | none => data
    .ok (data, c₁)
  | .error e => .error e

/-- The registration step of `_from_nested_schema` (base.py lines
198–213): when the target's name is neither already cached nor the name of
the schema currently being compiled, dump a fresh nested-mode instance —
which starts from an EMPTY cache — over the projected target, attach its
`additionalProperties`, store it under the target's name, and merge the
nested instance's own cache in. -/
def nestedCacheStep (g : GFun) (env : Env) (obj : SchemaDesc) (f : Field)
    (cache : Cache) (target : SchemaDesc) : Except Err Cache :=
  if (dget cache target.name).isNone ∧ target.name ≠ obj.name then
    match dumpDataAux g env
        { target with fields := projectFields target.fields f.fd.only f.fd.exclude } [] with
    | .ok (wd, wc) =>
      match resolve_additional_properties target with
      | .ok ap =>
        .ok (dupdate (dset cache target.name (.obj (dset wd "additionalProperties" ap))) wc)
      | .error e => .error e
    | .error e => .error e
  else .ok cache

/-- The fragment built by `_from_nested_schema` (base.py lines 216–233):
`{"type": "object", "$ref": "#/definitions/<name>"}`, the field's merged
metadata copied in, then the `many` wrap. -/
def buildNestedFragment (f : Field) (name : String) : JVal :=
  let schema : Dict := [("type", .str "object"), ("$ref", .str ("#/definitions/" ++ name))]
  let schema := copyMeta schema (effMeta f)
  if f.fd.many then
    .obj [("type", if f.fd.required then .str "array" else .arr [.str "array", .str "null"]),
          ("items", .obj schema)]
  else .obj schema

/-- `_from_nested_schema` (base.py lines 180–233), with the nested target
given by registry name (the `isclass` branch of the source; a directly
passed instance behaves the same with its own class name). -/
def fromNestedAux (g : GFun) (env : Env) (obj : SchemaDesc) (f : Field) (cache : Cache) :
    Except Err (JVal × Cache) :=
  match f.fd.nestedName with
  | none => .error .registryError
  | some ref =>
    match envLookup env ref with
    | none => .error .registryError
    | some target =>
      match nestedCacheStep g env obj f cache target with
      | .error e => .error e
      | .ok cache₁ => .ok (buildNestedFragment f target.name, cache₁)

/-- `_get_schema_for_field` (base.py lines 159–178): the override
precedence (`_jsonschema_type_mapping` attribute, then the metadata key of
the same name, then the type table) followed by the validator loop. -/
def gsffStep (g : GFun) : GFun := fun env obj f cache =>
  let resolved : Except Err (JVal × Cache) :=
    match f.fd.jtm with
    | some ov => .ok (.obj ov, cache)
    | none =>
      match dget f.fd.metadata "_jsonschema_type_mapping" with
      | some ov => .ok (ov, cache)
      | none =>
        match getPytype f defaultMapping with
        | .ok .method => fromNestedAux g env obj f cache
        | .ok (.ty p) => fromPythonTypeAux g env obj f p cache
        | .error e => .error e
  match resolved with
  | .ok (schema, c₁) => .ok (applyValidators f schema, c₁)
  | .error e => .error e

/-- `_get_schema_for_field` with an explicit recursion budget: the fuel is
spent one unit per call, so a result other than `Err.outOfFuel` is the
value the unbounded Python recursion computes. -/
def gsffCore : Nat → GFun
  | 0 => fun _ _ _ _ => .error .outOfFuel
  | fuel + 1 => gsffStep (gsffCore fuel)

/-- The root branch of the `wrap` post-dump step (base.py lines 240–257):
attach `additionalProperties`, register the root schema's own entry in the
instance cache, and build the document envelope whose `definitions` is that
same cache. -/
def wrapRoot (obj : SchemaDesc) (data : Dict) (cache : Cache) : Except Err (JVal × Cache) :=
  match resolve_additional_properties obj with
  | .ok ap =>
    let data := dset data "additionalProperties" ap
    let cache := dset cache obj.name (.obj data)
    .ok (.obj [("$schema", .str "http://json-schema.org/draft-07/schema#"),
               ("definitions", .obj cache),
               ("$ref", .str ("#/definitions/" ++ obj.name))], cache)
  | .error e => .error e

/-- `JSONSchema.dump` followed by `wrap`, for one instance whose cache
currently holds `cache`: nested mode returns the bare data (the outer
instance will merge the returned cache), root mode wraps.  Returns the
document together with the instance's cache after the call. -/
def dumpSchema (env : Env) (fuel : Nat) (nestedMode : Bool) (obj : SchemaDesc)
    (cache : Cache) : Except Err (JVal × Cache) :=
  match dumpDataAux (gsffCore fuel) env obj cache with
  | .ok (data, c₁) => if nestedMode then .ok (.obj data, c₁) else wrapRoot obj data c₁
  | .error e => .error e

/-- A top-level `JSONSchema().dump(obj)` on an instance whose cache holds
`cache` (a freshly constructed instance has `cache = []`). -/
def dumpRoot (env : Env) (fuel : Nat) (obj : SchemaDesc) (cache : Cache) :
    Except Err (JVal × Cache) :=
  dumpSchema env fuel false obj cache

/-- The keys of a dict, in order. -/
def dkeys (d : Dict) : List String :=
  d.map Prod.fst

/-! ### Reference definitions and concrete inputs used by the claims -/

/-- The resolution rule of `_resolve_additional_properties` stated
value-by-value, as the amended claim C6 reads: an explicit override is
returned verbatim when it equals `True` or `False` under Python equality —
which the booleans themselves and the integers `1` and `0` satisfy — and
raises otherwise; with no override, an unknown-policy of `"raise"` or
`"exclude"` gives `false`, `"include"` gives `true`, any other present
value raises, and with neither attribute the result is `false`. -/
def resolveAPAmended (s : SchemaDesc) : Except Err JVal :=
  match s.additional_properties with
  | some (.bool b) => .ok (.bool b)
  | some (.int n) =>
    if n = 1 ∨ n = 0 then .ok (.int n)
    else .error (.unsupportedValue "`additional_properties` must be either True or False")
  | some _ => .error (.unsupportedValue "`additional_properties` must be either True or False")
  | none =>
    match s.unknown with
    | none => .ok (.bool false)
    | some (.str t) =>
      if t = "raise" ∨ t = "exclude" then .ok (.bool false)
      else if t = "include" then .ok (.bool true)
      else .error (.unsupportedValue "Unknown value for `unknown`")
    | some _ => .error (.unsupportedValue "Unknown value for `unknown`")

/-- A schema whose `Meta.additional_properties` is the integer `1` —
present and not a boolean. -/
def apIntOverrideSchema : SchemaDesc :=
  { name := "APInt", fields := [], additional_properties := some (.int 1), unknown := none }

/-- A `Length(min=2)` validator of the exact recognized class. -/
def exLengthValidator : Validator :=
  { cls := "Length", ancestors := ["Validator"], params := .length (some 2) none none }

/-- A validator of an unrecognized class (an open-set constraint such as
`validate.Regexp`). -/
def exRegexpValidator : Validator :=
  { cls := "Regexp", ancestors := ["Validator"], params := .other }

/-- A validator whose class is a strict subclass of `validate.Length`. -/
def exMyLengthValidator : Validator :=
  { cls := "MyLength", ancestors := ["Length", "Validator"],
    params := .length (some 2) (some 5) none }

/-- A plain string field with no constraints or metadata. -/
def plainStringFd (name : String) : FieldData :=
  { name := name, attr := none, required := false, dump_only := false,
    default := none, metadata := [], validators := [], classes := ["String", "Field"],
    jtm := none, nestedName := none, many := false, only := none, exclude := [] }

/-- A string field carrying an unrecognized validator between two
recognized ones. -/
def exC9Field : Field :=
  .mk { plainStringFd "tag" with
        validators := [exLengthValidator, exRegexpValidator] } none

/-- A field whose class is a strict subclass of `fields.String`. -/
def exMyStringField : Field :=
  .mk { plainStringFd "code" with classes := ["MyString", "String", "Field"] } none

/-- A recursion hook that refuses every call; usable wherever the compiled
field provably performs no recursive `_get_schema_for_field` call. -/
def dummyG : GFun := fun _ _ _ _ => .error .outOfFuel

/-- The key list of a field's nested `metadata` sub-mapping before any
compilation. -/
def nestedMetaKeys (f : Field) : List String :=
  dkeys (nestedMetaOf f)

/-- The key list of the field's nested `metadata` sub-mapping after
`_from_python_type` has compiled the field.  Base.py line 140 binds the
local `metadata` to the very dict object stored under
`field.metadata["metadata"]` (no copy is taken), and line 141 calls
`metadata.update(field.metadata)` on it; when the sub-mapping exists the
update therefore mutates it in place, leaving its old keys followed by the
top-level metadata keys not already present (among them the literal key
`"metadata"`, whose value becomes a reference to the dict itself).  When no
sub-mapping exists, `.get` returns a fresh dict and the field is
untouched. -/
def nestedMetaKeysAfter (f : Field) : List String :=
  match dget f.fd.metadata "metadata" with
  | some (.obj m) => dkeys (dupdate m f.fd.metadata)
  | _ => nestedMetaKeys f

/-- A string field whose metadata carries a nested `metadata` sub-mapping
together with a top-level entry. -/
def exC3Field : Field :=
  .mk { plainStringFd "note" with
        metadata := [("metadata", .obj [("description", .str "a note")]),
                     ("minLength", .int 1)] } none

/-- A host schema for single-field compilations. -/
def exOuterSchema : SchemaDesc :=
  { name := "Outer", fields := [], additional_properties := none, unknown := none }

/-- A target schema for nested-reference fields. -/
def exPetSchema : SchemaDesc :=
  { name := "Pet", fields := [("id", .mk (plainStringFd "id") none)],
    additional_properties := none, unknown := none }

/-- A non-required collection-of-nested field (`Nested(PetSchema, many=True)`). -/
def exPetsField : Field :=
  .mk { plainStringFd "pets" with
        classes := ["Nested", "Field"], nestedName := some "Pet", many := true } none

/-- A two-field schema with exactly one required field. -/
def exC7Schema : SchemaDesc :=
  { name := "Account",
    fields := [("nick", .mk (plainStringFd "nick") none),
               ("id", .mk { plainStringFd "id" with required := true } none)],
    additional_properties := none, unknown := none }

/-- The dumped (pre-wrap) data of `exC7Schema`. -/
def exC7Data : Dict :=
  [("properties", .obj [("id", .obj [("title", .str "id"), ("type", .str "string")]),
                        ("nick", .obj [("title", .str "nick"), ("type", .str "string")])]),
   ("type", .str "object"),
   ("required", .arr [.str "id"])]

/-- A field carrying a custom override fragment
(`_jsonschema_type_mapping`) while also being output-only. -/
def exC4OverrideField : Field :=
  .mk { plainStringFd "x" with
          jtm := some [("type", .str "string")]
          dump_only := true } none

/-- A table-resolved field exercising every post-processing step. -/
def exC4PostField : Field :=
  .mk { plainStringFd "x" with
          attr := some "the_x"
          dump_only := true
          default := some (.str "N/A")
          metadata := [("description", .str "d")] } none

/-- The element field of `exC4ListField`. -/
def exC4InnerField : Field :=
  .mk (plainStringFd "id") none

/-- An array-of-primitive field (`fields.List(fields.String())`). -/
def exC4ListField : Field :=
  .mk { plainStringFd "ids" with classes := ["List", "Field"] } (some exC4InnerField)

/-- A `List` field whose metadata tries to force the key `items`. -/
def exC5ListField : Field :=
  .mk { plainStringFd "tags" with
          classes := ["List", "Field"]
          metadata := [("items", .str "overridden")] }
     (some (.mk (plainStringFd "item") none))

/-- A string field with both metadata sources populated and colliding on
the key `b`. -/
def exC5MetaField : Field :=
  .mk { plainStringFd "y" with
          metadata := [("metadata", .obj [("a", .int 1), ("b", .int 10)]),
                       ("b", .int 2)] } none

/-- Does `_get_pytype` resolve this target to a plain python type? -/
def isSimpleTarget : Except Err PyTarget → Bool
  | .ok (.ty _) => true
  | _ => false

/-- Does `_get_pytype` resolve this target to the nested-schema method? -/
def isMethodTarget : Except Err PyTarget → Bool
  | .ok .method => true
  | _ => false

/-- Neither override source of `_get_schema_for_field` is present. -/
def noOverride (f : Field) : Prop :=
  f.fd.jtm.isNone = true ∧ (dget f.fd.metadata "_jsonschema_type_mapping").isNone = true

/-- A table-resolved field that triggers no recursive compilation: no
override, a plain python type, not a `List`. -/
def SimpleField (f : Field) : Prop :=
  noOverride f ∧ isSimpleTarget (getPytype f defaultMapping) = true ∧
    "List" ∉ f.fd.classes

/-- The reference of a nested field resolves, through the registry, to a
schema bearing the same name as the schema currently being compiled —
a direct self-reference. -/
def selfRefTarget (env : Env) (obj : SchemaDesc) (f : Field) : Bool :=
  match f.fd.nestedName with
  | some n =>
    match envLookup env n with
    | some t => t.name == obj.name
    | none => false
  | none => false

/-- A nested field that is a direct self-reference. -/
def SelfRefField (env : Env) (obj : SchemaDesc) (f : Field) : Prop :=
  noOverride f ∧ isMethodTarget (getPytype f defaultMapping) = true ∧
    selfRefTarget env obj f = true

/-- Every field is either simple or a direct self-reference. -/
def fieldOk (env : Env) (obj : SchemaDesc) (f : Field) : Prop :=
  SimpleField f ∨ SelfRefField env obj f

/-- Field of `schemaB` nesting `SchemaA` (one half of a mutual reference). -/
def mutualFieldA : Field :=
  .mk { plainStringFd "a" with
          classes := ["Nested", "Field"]
          nestedName := some "SchemaA" } none

/-- Field of `schemaA` nesting `SchemaB` (the other half). -/
def mutualFieldB : Field :=
  .mk { plainStringFd "b" with
          classes := ["Nested", "Field"]
          nestedName := some "SchemaB" } none

/-- `SchemaA`, whose only field nests `SchemaB`. -/
def schemaA : SchemaDesc :=
  { name := "SchemaA", fields := [("b", mutualFieldB)],
    additional_properties := none, unknown := none }

/-- `SchemaB`, whose only field nests `SchemaA`. -/
def schemaB : SchemaDesc :=
  { name := "SchemaB", fields := [("a", mutualFieldA)],
    additional_properties := none, unknown := none }

/-- A registry holding the mutually-referential pair. -/
def envAB : Env :=
  [("SchemaA", schemaA), ("SchemaB", schemaB)]

/-- The projected instance `_from_nested_schema` builds for `mutualFieldA`. -/
def projA : SchemaDesc :=
  { schemaA with fields := projectFields schemaA.fields mutualFieldA.fd.only mutualFieldA.fd.exclude }

/-- The projected instance `_from_nested_schema` builds for `mutualFieldB`. -/
def projB : SchemaDesc :=
  { schemaB with fields := projectFields schemaB.fields mutualFieldB.fd.only mutualFieldB.fd.exclude }

/-- Termination of a top-level dump on a fresh instance: some finite
recursion budget suffices for the Python recursion to return. -/
def CompileTerminates (env : Env) (obj : SchemaDesc) : Prop :=
  ∃ fuel out c, dumpRoot env fuel obj [] = .ok (out, c)

/-- The self-referencing field of the tree-node schema
(`Nested("TreeNode")`). -/
def exTreeParentField : Field :=
  .mk { plainStringFd "parent" with
          classes := ["Nested", "Field"]
          nestedName := some "TreeNode" } none

/-- A directly self-referential schema: a tree node with a label and a
reference to its parent node. -/
def exTreeSchema : SchemaDesc :=
  { name := "TreeNode",
    fields := [("label", .mk (plainStringFd "label") none),
               ("parent", exTreeParentField)],
    additional_properties := none, unknown := none }

/-- A registry holding the tree-node schema under its own name. -/
def envTree : Env :=
  [("TreeNode", exTreeSchema)]

/-- A field nesting `Pet` (not a collection). -/
def exPetField : Field :=
  .mk { plainStringFd "pet" with
          classes := ["Nested", "Field"]
          nestedName := some "Pet" } none

/-- A schema whose `pet` field nests `exPetSchema`. -/
def exOwnerSchema : SchemaDesc :=
  { name := "Owner", fields := [("pet", exPetField)],
    additional_properties := none, unknown := none }

/-- A schema with a single string field and no nested references. -/
def exPlainSchema : SchemaDesc :=
  { name := "Plain", fields := [("z", .mk (plainStringFd "z") none)],
    additional_properties := none, unknown := none }

/-- Registry for the owner/pet/plain schemas. -/
def envOwner : Env :=
  [("Owner", exOwnerSchema), ("Pet", exPetSchema), ("Plain", exPlainSchema)]

/-- The `definitions` member of a root document. -/
def rootDefinitions (v : JVal) : Option JVal :=
  match v with
  | .obj d => dget d "definitions"
  | _ => none

/-- Cache-key monotonicity of a recursion hook: a successful call never
drops a key from the instance cache. -/
def CacheMono (g : GFun) : Prop :=
  ∀ env obj f cache v c', g env obj f cache = .ok (v, c') →
    ∀ k, (dget cache k).isSome = true → (dget c' k).isSome = true

/-- The `Pet` definition fragment as compiled. -/
def exPetDef : JVal :=
  .obj [("properties", .obj [("id", .obj [("title", .str "id"), ("type", .str "string")])]),
        ("type", .str "object"), ("additionalProperties", .bool false)]

/-- The `Owner` definition fragment as compiled. -/
def exOwnerDef : JVal :=
  .obj [("properties", .obj [("pet", .obj [("type", .str "object"),
          ("$ref", .str "#/definitions/Pet")])]),
        ("type", .str "object"), ("additionalProperties", .bool false)]

/-- The instance cache after a root dump of `Owner` on an instance whose
cache already held a stray `Legacy` entry. -/
def exC2CacheLegacy : Cache :=
  [("Legacy", .obj []), ("Pet", exPetDef), ("Owner", exOwnerDef)]

/-- The root document of that dump. -/
def exC2RootLegacy : JVal :=
  .obj [("$schema", .str "http://json-schema.org/draft-07/schema#"),
        ("definitions", .obj exC2CacheLegacy),
        ("$ref", .str "#/definitions/Owner")]

/-- The instance cache after a first root dump of `Owner` on a freshly
constructed instance. -/
def exC2CacheAfterFirst : Cache :=
  [("Pet", exPetDef), ("Owner", exOwnerDef)]

/-- Does this dump result carry both `Pet` and `Owner` definitions
entries? -/
def observesPetAndOwner (r : Except Err (JVal × Cache)) : Bool :=
  match r with
  | .ok (root, _) =>
    match rootDefinitions root with
    | some (.obj defs) => (dget defs "Pet").isSome && (dget defs "Owner").isSome
    | _ => false
  | _ => false

/-! ### Dictionary lemmas -/

theorem dget_dset (d : Dict) (k₀ k : String) (v : JVal) :
    dget (dset d k₀ v) k = if k₀ = k then some v else dget d k := by
  induction d with
  | nil => by_cases h : k₀ = k <;> simp [dset, dget, h]
  | cons kv rest ih =>
    obtain ⟨k', v'⟩ := kv
    by_cases h' : k' = k₀
    · subst h'
      by_cases h : k' = k <;> simp [dset, dget, h]
    · by_cases h : k' = k
      · subst h
        have hne : k₀ ≠ k' := fun hh => h' hh.symm
        simp [dset, dget, h', hne]
      · simp [dset, dget, h', h, ih]

theorem dget_dset_self (d : Dict) (k : String) (v : JVal) :
    dget (dset d k v) k = some v := by
  simp [dget_dset]

theorem dget_dset_ne (d : Dict) {k₀ k : String} (h : k₀ ≠ k) (v : JVal) :
    dget (dset d k₀ v) k = dget d k := by
  simp [dget_dset, h]

theorem dupdate_cons (a : Dict) (kv : String × JVal) (rest : Dict) :
    dupdate a (kv :: rest) = dupdate (dset a kv.1 kv.2) rest := by
  simp [dupdate]

theorem dget_dupdate_not_mem (a : Dict) {b : Dict} {k : String}
    (h : ∀ kv ∈ b, kv.1 ≠ k) : dget (dupdate a b) k = dget a k := by
  induction b generalizing a with
  | nil => simp [dupdate]
  | cons kv rest ih =>
    have hk : kv.1 ≠ k := h kv (by simp)
    rw [dupdate_cons, ih (dset a kv.1 kv.2) (fun x hx => h x (List.mem_cons_of_mem _ hx)),
      dget_dset_ne _ hk]

theorem dget_dupdate_mem (a : Dict) {b : Dict} {k : String} {v : JVal}
    (hnd : (dkeys b).Nodup) (hm : (k, v) ∈ b) :
    dget (dupdate a b) k = some v := by
  induction b generalizing a with
  | nil => cases hm
  | cons kv rest ih =>
    have hnd' : kv.1 ∉ List.map Prod.fst rest ∧ (dkeys rest).Nodup := by
      simpa [dkeys] using hnd
    rcases List.mem_cons.mp hm with h | h
    · subst h
      rw [dupdate_cons,
        dget_dupdate_not_mem _ (fun x hx hxk => hnd'.1 (List.mem_map.mpr ⟨x, hx, hxk⟩)),
        dget_dset_self]
    · rw [dupdate_cons]
      exact ih (dset a kv.1 kv.2) hnd'.2 h

/-- `dupdate` looks up as "right wins, else left" when the right dict has
unique keys. -/
theorem dget_dupdate (a : Dict) {b : Dict} (hnd : (dkeys b).Nodup) (k : String) :
    dget (dupdate a b) k = ((dget b k).or (dget a k)) := by
  induction b generalizing a with
  | nil => simp [dupdate, dget]
  | cons kv rest ih =>
    obtain ⟨k', v'⟩ := kv
    have hnd' : k' ∉ List.map Prod.fst rest ∧ (dkeys rest).Nodup := by
      simpa [dkeys] using hnd
    by_cases h : k' = k
    · subst h
      rw [dupdate_cons,
        dget_dupdate_not_mem _ (fun x hx hxk => hnd'.1 (List.mem_map.mpr ⟨x, hx, hxk⟩)),
        dget_dset_self]
      simp [dget]
    · rw [dupdate_cons, ih (dset a k' v') hnd'.2]
      simp [dget, h, dget_dset_ne _ h]

theorem copyMeta_cons (js : Dict) (kv : String × JVal) (rest : Dict) :
    copyMeta js (kv :: rest) =
      copyMeta (if kv.1 = "metadata" then js else dset js kv.1 kv.2) rest := by
  by_cases h : kv.1 = "metadata" <;> simp [copyMeta, h]

theorem copyMeta_not_mem (js : Dict) {md : Dict} {k : String}
    (h : ∀ kv ∈ md, kv.1 ≠ k) : dget (copyMeta js md) k = dget js k := by
  induction md generalizing js with
  | nil => simp [copyMeta]
  | cons kv rest ih =>
    have hk : kv.1 ≠ k := h kv (by simp)
    rw [copyMeta_cons, ih _ (fun x hx => h x (List.mem_cons_of_mem _ hx))]
    by_cases hmd : kv.1 = "metadata" <;> simp [hmd, dget_dset_ne _ hk]

theorem copyMeta_mem (js : Dict) {md : Dict} {k : String} {v : JVal}
    (hnd : (dkeys md).Nodup) (hm : (k, v) ∈ md) (hk : k ≠ "metadata") :
    dget (copyMeta js md) k = some v := by
  induction md generalizing js with
  | nil => cases hm
  | cons kv rest ih =>
    have hnd' : kv.1 ∉ List.map Prod.fst rest ∧ (dkeys rest).Nodup := by
      simpa [dkeys] using hnd
    rcases List.mem_cons.mp hm with h | h
    · subst h
      rw [copyMeta_cons,
        copyMeta_not_mem _ (fun x hx hxk => hnd'.1 (List.mem_map.mpr ⟨x, hx, hxk⟩))]
      simp [hk, dget_dset_self]
    · rw [copyMeta_cons]
      exact ih _ hnd'.2 h

/-! ### Sorting lemmas -/

theorem mem_insertField (a x : String × Field) (l : List (String × Field)) :
    x ∈ insertField a l ↔ x = a ∨ x ∈ l := by
  induction l with
  | nil => simp [insertField]
  | cons b bs ih =>
    by_cases h : strLe a.1 b.1 = true
    · rw [insertField, if_pos h]
      exact List.mem_cons
    · rw [insertField, if_neg h]
      simp only [List.mem_cons, ih]
      tauto

theorem mem_sortFields (x : String × Field) (fs : List (String × Field)) :
    x ∈ sortFields fs ↔ x ∈ fs := by
  induction fs with
  | nil => simp [sortFields]
  | cons a rest ih =>
    simp only [sortFields, List.foldr_cons] at *
    rw [mem_insertField, ih, List.mem_cons]

theorem charListLe_total (a b : List Char) :
    charListLe a b = true ∨ charListLe b a = true := by
  induction a generalizing b with
  | nil => exact Or.inl rfl
  | cons c cs ih =>
    cases b with
    | nil => exact Or.inr rfl
    | cons d ds =>
      by_cases h1 : c.val.toNat < d.val.toNat
      · left; simp [charListLe, h1]
      · by_cases h2 : d.val.toNat < c.val.toNat
        · right; simp [charListLe, h2]
        · rcases ih ds with h | h
          · left; simp [charListLe, h1, h2, h]
          · right; simp [charListLe, h1, h2, h]

theorem charListLe_trans : ∀ {a b c : List Char}, charListLe a b = true →
    charListLe b c = true → charListLe a c = true := by
  intro a
  induction a with
  | nil => intro b c _ _; rfl
  | cons x xs ih =>
    intro b c h1 h2
    cases b with
    | nil => simp [charListLe] at h1
    | cons y ys =>
      cases c with
      | nil => simp [charListLe] at h2
      | cons z zs =>
        by_cases hxy : x.val.toNat < y.val.toNat
        · by_cases hyz : y.val.toNat < z.val.toNat
          · have hxz : x.val.toNat < z.val.toNat := lt_trans hxy hyz
            simp [charListLe, hxz]
          · by_cases hzy : z.val.toNat < y.val.toNat
            · simp [charListLe, hyz, hzy] at h2
            · have hyz' : y.val.toNat = z.val.toNat :=
                le_antisymm (Nat.le_of_not_lt hzy) (Nat.le_of_not_lt hyz)
              have hxz : x.val.toNat < z.val.toNat := hyz' ▸ hxy
              simp [charListLe, hxz]
        · by_cases hyx : y.val.toNat < x.val.toNat
          · simp [charListLe, hxy, hyx] at h1
          · have hxy' : x.val.toNat = y.val.toNat :=
              le_antisymm (Nat.le_of_not_lt hyx) (Nat.le_of_not_lt hxy)
            simp only [charListLe, if_neg hxy, if_neg hyx] at h1
            by_cases hyz : y.val.toNat < z.val.toNat
            · have hxz : x.val.toNat < z.val.toNat := hxy' ▸ hyz
              simp [charListLe, hxz]
            · by_cases hzy : z.val.toNat < y.val.toNat
              · simp [charListLe, hyz, hzy] at h2
              · have hyz' : y.val.toNat = z.val.toNat :=
                  le_antisymm (Nat.le_of_not_lt hzy) (Nat.le_of_not_lt hyz)
                simp only [charListLe, if_neg hyz, if_neg hzy] at h2
                have hxz1 : ¬x.val.toNat < z.val.toNat := by
                  rw [hxy', hyz']; exact lt_irrefl _
                have hxz2 : ¬z.val.toNat < x.val.toNat := by
                  rw [hxy', hyz']; exact lt_irrefl _
                simp only [charListLe, if_neg hxz1, if_neg hxz2]
                exact ih h1 h2

theorem strLe_total (a b : String) : strLe a b = true ∨ strLe b a = true :=
  charListLe_total a.data b.data

theorem strLe_trans {a b c : String} (h1 : strLe a b = true) (h2 : strLe b c = true) :
    strLe a c = true :=
  charListLe_trans h1 h2

theorem pairwise_insertField (a : String × Field) {l : List (String × Field)}
    (hl : l.Pairwise (fun x y => strLe x.1 y.1 = true)) :
    (insertField a l).Pairwise (fun x y => strLe x.1 y.1 = true) := by
  induction l with
  | nil => simp [insertField]
  | cons b bs ih =>
    rcases List.pairwise_cons.mp hl with ⟨hb, hbs⟩
    by_cases h : strLe a.1 b.1 = true
    · rw [insertField, if_pos h]
      refine List.pairwise_cons.mpr ⟨?_, hl⟩
      intro y hy
      rcases List.mem_cons.mp hy with rfl | hy
      · exact h
      · exact strLe_trans h (hb y hy)
    · rw [insertField, if_neg h]
      refine List.pairwise_cons.mpr ⟨?_, ih hbs⟩
      intro y hy
      rcases (mem_insertField a y bs).mp hy with rfl | hy
      · exact (strLe_total _ _).resolve_left h
      · exact hb y hy

theorem sortFields_pairwise (fs : List (String × Field)) :
    (sortFields fs).Pairwise (fun x y => strLe x.1 y.1 = true) := by
  induction fs with
  | nil => simp [sortFields]
  | cons a rest ih => simpa [sortFields] using pairwise_insertField a ih

/-! ### `get_required` lemmas -/

theorem getRequired_eq_none_iff (obj : SchemaDesc) :
    getRequired obj = none ↔ ∀ kf ∈ obj.fields, kf.2.fd.required = false := by
  unfold getRequired
  split
  case isTrue hE =>
    simp only [requiredNames, List.isEmpty_iff, List.map_eq_nil_iff,
      List.filter_eq_nil_iff] at hE
    constructor
    · intro _ kf hkf
      simpa using hE kf ((mem_sortFields _ _).mpr hkf)
    · intro _
      rfl
  case isFalse hE =>
    constructor
    · intro h
      cases h
    · intro hall
      exfalso
      apply hE
      simp only [requiredNames, List.isEmpty_iff, List.map_eq_nil_iff,
        List.filter_eq_nil_iff]
      intro kf hkf
      simp [hall kf ((mem_sortFields _ _).mp hkf)]

theorem getRequired_eq_some (obj : SchemaDesc) {req : List String}
    (h : getRequired obj = some req) :
    req = requiredNames obj ∧ req ≠ [] := by
  unfold getRequired at h
  split at h
  case isTrue hE => cases h
  case isFalse hE =>
    injection h with h'
    subst h'
    refine ⟨rfl, fun hnil => hE ?_⟩
    rw [hnil]
    rfl

/-! ### Claim C6 -/

/-- **C6** (amended): `_resolve_additional_properties` follows the claimed
precedence — explicit override first, then the unknown-field policy, then
the default `false` — but the override acceptance test is Python equality
with `True`/`False`, which the integers `1` and `0` also pass (returned
verbatim); the error cases are otherwise as claimed. -/
theorem C6_resolve_additional_properties_amended (s : SchemaDesc) :
    resolve_additional_properties s = resolveAPAmended s := by
  unfold resolve_additional_properties resolveAPAmended
  cases hap : s.additional_properties with
  | some v =>
    cases v with
    | bool b => cases b <;> rfl
    | int n =>
      by_cases h1 : n = 1
      · subst h1; rfl
      · by_cases h0 : n = 0
        · subst h0; rfl
        · simp [pyEq, h1, h0]
    | null => rfl
    | str t => rfl
    | arr xs => rfl
    | obj kvs => rfl
  | none =>
    cases hu : s.unknown with
    | none => rfl
    | some u =>
      cases u with
      | str t =>
        by_cases hr : t = "raise"
        · subst hr; rfl
        · by_cases he : t = "exclude"
          · subst he; rfl
          · by_cases hi : t = "include"
            · subst hi; simp [pyEq, hr, he]
            · simp [pyEq, hr, he, hi]
      | null => rfl
      | bool b => cases b <;> rfl
      | int n => rfl
      | arr xs => rfl
      | obj kvs => rfl

/-- **C6** counterexample: with the override set to the integer `1` — a
non-boolean — the claim requires a configuration error, but the code
accepts it (Python's `1 in (True, False)` is true) and returns the integer
itself. -/
theorem C6_counterexample :
    resolve_additional_properties apIntOverrideSchema = .ok (.int 1) ∧
      (∀ b : Bool, JVal.int 1 ≠ JVal.bool b) :=
  ⟨rfl, fun _ h => nomatch h⟩

/-! ### Claim C9 -/

/-- **C9**: the validator loop applies the attached constraints by an
in-order fold, and a constraint whose class is not among the recognized set
(the keys of `FIELD_VALIDATORS`) is silently ignored: it contributes
nothing — removing it from the list leaves the resulting fragment unchanged
— and, the application being a total function, no error is raised. -/
theorem C9_unrecognized_constraints_ignored (f : Field) (schema : JVal)
    (vs₁ vs₂ : List Validator) (w : Validator)
    (hw : w.cls ∉ FIELD_VALIDATOR_KEYS)
    (hf : f.fd.validators = vs₁ ++ w :: vs₂) :
    applyValidators f schema = (vs₁ ++ vs₂).foldl (applyValidator f) schema := by
  unfold applyValidators
  rw [hf]
  clear hf
  induction vs₁ generalizing schema with
  | nil => simp [applyValidator, hw]
  | cons v rest ih => simp only [List.cons_append, List.foldl_cons]; exact ih _

/-- **C9** witness at a concrete input: a `Regexp` validator sandwiched
after a `Length` one contributes nothing. -/
theorem C9_witness :
    applyValidators exC9Field (.obj [("type", .str "string")]) =
      [exLengthValidator].foldl (applyValidator exC9Field) (.obj [("type", .str "string")]) :=
  C9_unrecognized_constraints_ignored exC9Field _ [exLengthValidator] []
    exRegexpValidator (by decide) rfl

/-! ### Claim C10 -/

/-- **C10**: constraint dispatch is by exact runtime class — a validator
whose class is a strict subclass of `Length`, `OneOf` or `Range` (the
recognized class among its ancestors, not its own class) is skipped and
leaves the fragment unchanged — whereas `_get_pytype` matches the type
table by ancestry: a field whose own class is absent from the table but
which subclasses `String` (and none of the table classes listed before it)
still resolves to the `str` python type. -/
theorem C10_dispatch_exact_class_vs_subclass :
    (∀ (f : Field) (schema : JVal) (w : Validator),
      w.cls ∉ FIELD_VALIDATOR_KEYS →
      ("Length" ∈ w.ancestors ∨ "OneOf" ∈ w.ancestors ∨ "Range" ∈ w.ancestors) →
      applyValidator f schema w = schema) ∧
    (∀ f : Field,
      (∀ c ∈ ["UUID", "Time", "Date", "TimeDelta", "Email", "Url", "Integer",
              "Boolean", "Float", "Decimal"], c ∉ f.fd.classes) →
      f.fd.classes.head? ≠ some "String" →
      "String" ∈ f.fd.classes →
      getPytype f defaultMapping = .ok (.ty .pstr)) := by
  constructor
  · intro f schema w hw _
    simp [applyValidator, hw]
  · intro f h _ hs
    have h1 : "UUID" ∉ f.fd.classes := h _ (by simp)
    have h2 : "Time" ∉ f.fd.classes := h _ (by simp)
    have h3 : "Date" ∉ f.fd.classes := h _ (by simp)
    have h4 : "TimeDelta" ∉ f.fd.classes := h _ (by simp)
    have h5 : "Email" ∉ f.fd.classes := h _ (by simp)
    have h6 : "Url" ∉ f.fd.classes := h _ (by simp)
    have h7 : "Integer" ∉ f.fd.classes := h _ (by simp)
    have h8 : "Boolean" ∉ f.fd.classes := h _ (by simp)
    have h9 : "Float" ∉ f.fd.classes := h _ (by simp)
    have h10 : "Decimal" ∉ f.fd.classes := h _ (by simp)
    simp [getPytype, defaultMapping, h1, h2, h3, h4, h5, h6, h7, h8, h9, h10, hs]

/-- **C10** witness at concrete inputs: a `MyLength` strict subclass of
`Length` is skipped by the validator loop, while a `MyString` strict
subclass of `String` is resolved by the type table. -/
theorem C10_witness :
    applyValidator exMyStringField (.obj [("type", .str "string")]) exMyLengthValidator =
        .obj [("type", .str "string")] ∧
      getPytype exMyStringField defaultMapping = .ok (.ty .pstr) :=
  ⟨C10_dispatch_exact_class_vs_subclass.1 exMyStringField _ exMyLengthValidator
      (by decide) (by simp [exMyLengthValidator]),
   C10_dispatch_exact_class_vs_subclass.2 exMyStringField (by decide) (by decide)
      (by decide)⟩

/-! ### Claim C3 -/

/-- **C3** (code bug): compilation mutates a field's nested `metadata`
sub-mapping in place.  On a field carrying both a nested sub-mapping
`{"description": ...}` and a top-level entry `minLength`,
`_from_python_type` completes normally and produces the expected fragment,
but the sub-mapping — aliased by line 140 and updated in place by line 141
— afterwards has keys `["description", "metadata", "minLength"]` instead of
`["description"]`, contradicting the claim that the field's nested metadata
sub-mapping is unchanged by compilation. -/
theorem C3_compile_mutates_field_metadata :
    fromPythonTypeAux dummyG [] exOuterSchema exC3Field .pstr [] =
        .ok (.obj [("title", .str "note"), ("type", .str "string"),
                   ("description", .str "a note"), ("minLength", .int 1)], []) ∧
      nestedMetaKeysAfter exC3Field ≠ nestedMetaKeys exC3Field ∧
      nestedMetaKeysAfter exC3Field = ["description", "metadata", "minLength"] :=
  ⟨rfl, by decide, by decide⟩

/-! ### Claim C8 -/

/-- **C8**: a nested-schema field with `many=True` compiles to a wrapper
whose `items` is exactly the (metadata-merged) `$ref` reference fragment
and whose outer `type` is `"array"` when the field is required and
`["array", "null"]` otherwise; when the field's metadata does not shadow
`$ref`, the items fragment's `$ref` points at the target's definition. -/
theorem C8_many_nested_wraps_ref (g : GFun) (env : Env) (obj : SchemaDesc) (f : Field)
    (cache : Cache) (n : String) (t : SchemaDesc) (v : JVal) (c' : Cache)
    (hn : f.fd.nestedName = some n)
    (ht : envLookup env n = some t)
    (hmany : f.fd.many = true)
    (hok : fromNestedAux g env obj f cache = .ok (v, c')) :
    v = .obj [("type", if f.fd.required then .str "array" else .arr [.str "array", .str "null"]),
              ("items", .obj (copyMeta [("type", .str "object"),
                ("$ref", .str ("#/definitions/" ++ t.name))] (effMeta f)))] ∧
      ((∀ kv ∈ effMeta f, kv.1 ≠ "$ref") →
        dget (copyMeta [("type", .str "object"),
            ("$ref", .str ("#/definitions/" ++ t.name))] (effMeta f)) "$ref" =
          some (.str ("#/definitions/" ++ t.name))) := by
  constructor
  · simp only [fromNestedAux, hn, ht] at hok
    cases hcs : nestedCacheStep g env obj f cache t with
    | error e => simp [hcs] at hok
    | ok cache₁ =>
      simp only [hcs, Except.ok.injEq, Prod.mk.injEq] at hok
      rw [← hok.1]
      simp [buildNestedFragment, hmany]
  · intro hnm
    rw [copyMeta_not_mem _ hnm]
    simp [dget]

/-- **C8** witness at a concrete input: a non-required `Nested(Pet,
many=True)` field, with the `Pet` definition already cached. -/
theorem C8_witness :
    (JVal.obj [("type", .arr [.str "array", .str "null"]),
               ("items", .obj [("type", .str "object"), ("$ref", .str "#/definitions/Pet")])] =
      .obj [("type", if exPetsField.fd.required then .str "array"
                     else .arr [.str "array", .str "null"]),
            ("items", .obj (copyMeta [("type", .str "object"),
              ("$ref", .str ("#/definitions/" ++ exPetSchema.name))] (effMeta exPetsField)))]) ∧
      ((∀ kv ∈ effMeta exPetsField, kv.1 ≠ "$ref") →
        dget (copyMeta [("type", .str "object"),
            ("$ref", .str ("#/definitions/" ++ exPetSchema.name))] (effMeta exPetsField)) "$ref" =
          some (.str ("#/definitions/" ++ exPetSchema.name))) :=
  C8_many_nested_wraps_ref dummyG [("Pet", exPetSchema)] exOuterSchema exPetsField
    [("Pet", JVal.obj [])] "Pet" exPetSchema _ [("Pet", JVal.obj [])] rfl rfl rfl rfl

/-! ### Claim C7 -/

/-- **C7**: in the dumped data of any schema, the `required` key is absent
exactly when no field is required; when at least one field is required, the
key holds the required fields' external names, obtained by filtering the
fields sorted by attribute name (a lexicographically sorted order, third
conjunct). -/
theorem C7_required_key (g : GFun) (env : Env) (obj : SchemaDesc) (cache : Cache)
    (data : Dict) (c' : Cache)
    (hok : dumpDataAux g env obj cache = .ok (data, c')) :
    (dget data "required" = none ↔ ∀ kf ∈ obj.fields, kf.2.fd.required = false) ∧
      ((∃ kf ∈ obj.fields, kf.2.fd.required = true) →
        dget data "required" = some (.arr ((requiredNames obj).map .str))) ∧
      (sortFields obj.fields).Pairwise (fun a b => strLe a.1 b.1 = true) := by
  unfold dumpDataAux at hok
  cases hprops : getPropsAux g env obj (sortFields obj.fields) [] cache with
  | error e => rw [hprops] at hok; cases hok
  | ok pc =>
    obtain ⟨props, c₁⟩ := pc
    rw [hprops] at hok
    cases hreq : getRequired obj with
    | none =>
      rw [hreq] at hok
      simp only [Except.ok.injEq, Prod.mk.injEq] at hok
      obtain ⟨hdata, -⟩ := hok
      subst hdata
      refine ⟨?_, ?_, sortFields_pairwise obj.fields⟩
      · have hd : dget [("properties", JVal.obj props), ("type", JVal.str "object")]
            "required" = none := by simp [dget]
        rw [hd]
        exact iff_of_true rfl ((getRequired_eq_none_iff obj).mp hreq)
      · rintro ⟨kf, hkf, hr⟩
        have hfalse := (getRequired_eq_none_iff obj).mp hreq kf hkf
        rw [hfalse] at hr
        cases hr
    | some req =>
      rw [hreq] at hok
      simp only [Except.ok.injEq, Prod.mk.injEq] at hok
      obtain ⟨hdata, -⟩ := hok
      subst hdata
      obtain ⟨hL, hne⟩ := getRequired_eq_some obj hreq
      refine ⟨?_, ?_, sortFields_pairwise obj.fields⟩
      · refine iff_of_false (by simp [dget]) ?_
        intro hall
        have hcontra := (getRequired_eq_none_iff obj).mpr hall
        rw [hreq] at hcontra
        cases hcontra
      · intro _
        subst hL
        simp [dget]

/-- **C7** witness at a concrete input: a schema with a required `id` and
an optional `nick` field. -/
theorem C7_witness :
    (dget exC7Data "required" = none ↔ ∀ kf ∈ exC7Schema.fields, kf.2.fd.required = false) ∧
      ((∃ kf ∈ exC7Schema.fields, kf.2.fd.required = true) →
        dget exC7Data "required" = some (.arr ((requiredNames exC7Schema).map .str))) ∧
      (sortFields exC7Schema.fields).Pairwise (fun a b => strLe a.1 b.1 = true) :=
  C7_required_key (gsffCore 1) [] exC7Schema [] exC7Data [] (by rfl)


/-! ### Post-processing step lemmas -/

theorem TYPE_MAP_keys (p : PyType) : ∀ kv ∈ TYPE_MAP p, kv.1 = "type" ∨ kv.1 = "format" := by
  cases p <;> decide

theorem dget_fpAfterType_title (f : Field) (p : PyType) :
    dget (fpAfterType f p) "title" = some (.str (titleOf f)) := by
  have hnm : ∀ kv ∈ TYPE_MAP p, kv.1 ≠ "title" := by
    intro kv hkv
    rcases TYPE_MAP_keys p kv hkv with h | h <;> simp [h]
  rw [fpAfterType, dget_dupdate_not_mem _ hnm]
  rfl

theorem dget_fpAfterReadonly_title (f : Field) (p : PyType) :
    dget (fpAfterReadonly f p) "title" = some (.str (titleOf f)) := by
  unfold fpAfterReadonly
  by_cases h : f.fd.dump_only = true
  · rw [if_pos h, dget_dset_ne _ (by decide), dget_fpAfterType_title]
  · rw [if_neg h, dget_fpAfterType_title]

theorem dget_fpAfterDefault_title (f : Field) (p : PyType) :
    dget (fpAfterDefault f p) "title" = some (.str (titleOf f)) := by
  unfold fpAfterDefault
  cases f.fd.default with
  | some d => rw [dget_dset_ne _ (by decide), dget_fpAfterReadonly_title]
  | none => rw [dget_fpAfterReadonly_title]

theorem dget_fpAfterDefault_readonly (f : Field) (p : PyType)
    (h : f.fd.dump_only = true) :
    dget (fpAfterDefault f p) "readonly" = some (.bool true) := by
  unfold fpAfterDefault
  have hro : dget (fpAfterReadonly f p) "readonly" = some (.bool true) := by
    rw [fpAfterReadonly, if_pos h, dget_dset_self]
  cases f.fd.default with
  | some d => rw [dget_dset_ne _ (by decide), hro]
  | none => rw [hro]

theorem dget_fpAfterDefault_default (f : Field) (p : PyType) {d : JVal}
    (h : f.fd.default = some d) :
    dget (fpAfterDefault f p) "default" = some d := by
  unfold fpAfterDefault
  rw [h, dget_dset_self]

/-! ### Claim C4 -/

/-- **C4** counterexample: a field exposing a custom override fragment is
NOT post-processed — here a `dump_only` field named `x` compiles to the
override fragment verbatim, with neither the claimed `title` nor the
claimed `readonly: true` present. -/
theorem C4_counterexample :
    gsffCore 1 [] exOuterSchema exC4OverrideField [] =
        .ok (.obj [("type", .str "string")], []) ∧
      dget [("type", .str "string")] "title" = none ∧
      dget [("type", .str "string")] "readonly" = none :=
  ⟨rfl, rfl, rfl⟩

/-- **C4** (amended): a field with a custom override fragment compiles to
that fragment verbatim (only the validator loop still applies, no
post-processing); the post-processing steps — `title`, `readonly`,
`default`, metadata merge, and recursive `items` resolution for an
array-of-primitive field — are applied exactly to the fragments resolved
through the type table (`_from_python_type`).  The `title`/`readonly`/
`default` conclusions hold whenever the metadata merge does not shadow the
respective key. -/
theorem C4_postprocessing (g : GFun) (env : Env) (obj : SchemaDesc) (f : Field)
    (cache : Cache) :
    (∀ ov, f.fd.jtm = some ov →
      gsffStep g env obj f cache = .ok (applyValidators f (.obj ov), cache)) ∧
    (∀ p : PyType,
      ((∀ kv ∈ effMeta f, kv.1 ≠ "title") →
        dget (fromPythonBase f p) "title" = some (.str (titleOf f))) ∧
      (f.fd.dump_only = true → (∀ kv ∈ effMeta f, kv.1 ≠ "readonly") →
        dget (fromPythonBase f p) "readonly" = some (.bool true)) ∧
      (∀ d, f.fd.default = some d → (∀ kv ∈ effMeta f, kv.1 ≠ "default") →
        dget (fromPythonBase f p) "default" = some d) ∧
      ((dkeys (effMeta f)).Nodup → ∀ k v, (k, v) ∈ effMeta f → k ≠ "metadata" →
        dget (fromPythonBase f p) k = some v) ∧
      (∀ js' c', "List" ∈ f.fd.classes →
        fromPythonTypeAux g env obj f p cache = .ok (.obj js', c') →
        ∃ fi vi, f.inner = some fi ∧ g env obj fi cache = .ok (vi, c') ∧
          dget js' "items" = some vi)) := by
  constructor
  · intro ov hov
    simp [gsffStep, hov]
  · intro p
    refine ⟨?_, ?_, ?_, ?_, ?_⟩
    · intro hnm
      rw [fromPythonBase, copyMeta_not_mem _ hnm, dget_fpAfterDefault_title]
    · intro hdo hnm
      rw [fromPythonBase, copyMeta_not_mem _ hnm, dget_fpAfterDefault_readonly f p hdo]
    · intro d hd hnm
      rw [fromPythonBase, copyMeta_not_mem _ hnm, dget_fpAfterDefault_default f p hd]
    · intro hnd k v hm hk
      rw [fromPythonBase, copyMeta_mem _ hnd hm hk]
    · intro js' c' hL hok
      unfold fromPythonTypeAux at hok
      rw [if_pos hL] at hok
      cases hinner : f.inner with
      | none => simp [hinner] at hok
      | some fi =>
        simp only [hinner] at hok
        cases hg : g env obj fi cache with
        | error e => simp [hg] at hok
        | ok pc =>
          obtain ⟨vi, c₁⟩ := pc
          simp only [hg, Except.ok.injEq, Prod.mk.injEq, JVal.obj.injEq] at hok
          obtain ⟨hjs, hc⟩ := hok
          subst hc
          subst hjs
          exact ⟨fi, vi, rfl, hg, dget_dset_self _ _ _⟩

/-- **C4** witness at concrete inputs: the override field compiles
verbatim, and a fully loaded table-resolved field gets `title`,
`readonly`, `default` and a recursively resolved `items`. -/
theorem C4_witness :
    gsffStep dummyG [] exOuterSchema exC4OverrideField [] =
        .ok (applyValidators exC4OverrideField (.obj [("type", .str "string")]), []) ∧
      dget (fromPythonBase exC4PostField .pstr) "title" = some (.str "the_x") ∧
      dget (fromPythonBase exC4PostField .pstr) "readonly" = some (.bool true) ∧
      dget (fromPythonBase exC4PostField .pstr) "default" = some (.str "N/A") ∧
      (∃ fi vi, exC4ListField.inner = some fi ∧
        gsffCore 1 [] exOuterSchema fi [] = .ok (vi, []) ∧
        dget [("title", .str "ids"), ("type", .str "array"),
              ("items", .obj [("title", .str "id"), ("type", .str "string")])]
          "items" = some vi) :=
  ⟨(C4_postprocessing dummyG [] exOuterSchema exC4OverrideField []).1 _ rfl,
   ((C4_postprocessing dummyG [] exOuterSchema exC4PostField []).2 .pstr).1 (by decide),
   ((C4_postprocessing dummyG [] exOuterSchema exC4PostField []).2 .pstr).2.1 rfl (by decide),
   ((C4_postprocessing dummyG [] exOuterSchema exC4PostField []).2 .pstr).2.2.1 _ rfl (by decide),
   ((C4_postprocessing (gsffCore 1) [] exOuterSchema exC4ListField []).2 .plist).2.2.2.2
     _ [] (by decide) rfl⟩

/-! ### Claim C5 -/

/-- **C5** counterexample: for a `List` field the `items` step runs after
the metadata merge, so a metadata entry `items: "overridden"` does not
survive into the final fragment — it is replaced by the recursively
resolved element fragment, contradicting the claim that metadata overwrites
keys produced by "anything else". -/
theorem C5_counterexample :
    gsffCore 2 [] exOuterSchema exC5ListField [] =
        .ok (.obj [("title", .str "tags"), ("type", .str "array"),
                   ("items", .obj [("title", .str "item"), ("type", .str "string")])], []) ∧
      ("items", JVal.str "overridden") ∈ effMeta exC5ListField ∧
      dget [("title", .str "tags"), ("type", .str "array"),
            ("items", .obj [("title", .str "item"), ("type", .str "string")])] "items" =
        some (.obj [("title", .str "item"), ("type", .str "string")]) ∧
      (∀ t, JVal.obj [("title", .str "item"), ("type", .str "string")] ≠ JVal.str t) :=
  ⟨rfl,
   by
     show ("items", JVal.str "overridden") ∈ ([("items", JVal.str "overridden")] : Dict)
     simp,
   rfl, fun _ h => nomatch h⟩

/-- **C5** (amended): the effective metadata is the nested sub-mapping
overlaid by the top-level entries with top-level winning (first conjunct),
and every effective key other than the literal `metadata` is copied into
the fragment, overwriting the type-table and title/readonly/default output
(second conjunct); however the array-`items` step runs after the merge, so
on a `List` field the final `items` is the recursively resolved element
fragment, not the metadata value (third conjunct). -/
theorem C5_metadata_merge (f : Field) (p : PyType) :
    ((dkeys f.fd.metadata).Nodup →
      ∀ k, dget (effMeta f) k = ((dget f.fd.metadata k).or (dget (nestedMetaOf f) k))) ∧
    ((dkeys (effMeta f)).Nodup →
      ∀ k v, (k, v) ∈ effMeta f → k ≠ "metadata" →
        dget (fromPythonBase f p) k = some v) ∧
    (∀ (g : GFun) (env : Env) (obj : SchemaDesc) (cache : Cache) (js' : Dict)
        (c' : Cache) (fi : Field) (vi : JVal) (c₁ : Cache),
      "List" ∈ f.fd.classes → f.inner = some fi →
      g env obj fi cache = .ok (vi, c₁) →
      fromPythonTypeAux g env obj f p cache = .ok (.obj js', c') →
      dget js' "items" = some vi) := by
  refine ⟨?_, ?_, ?_⟩
  · intro hnd k
    exact dget_dupdate _ hnd k
  · intro hnd k v hm hk
    rw [fromPythonBase, copyMeta_mem _ hnd hm hk]
  · intro g env obj cache js' c' fi vi c₁ hL hinner hg hok
    unfold fromPythonTypeAux at hok
    rw [if_pos hL] at hok
    simp only [hinner, hg, Except.ok.injEq, Prod.mk.injEq, JVal.obj.injEq] at hok
    obtain ⟨hjs, hc⟩ := hok
    subst hjs
    exact dget_dset_self _ _ _

/-- **C5** witness at a concrete input: on a field with both metadata
sources, the top-level `b` wins over the nested one and both effective
keys land in the fragment. -/
theorem C5_witness :
    dget (effMeta exC5MetaField) "b" =
        ((dget exC5MetaField.fd.metadata "b").or (dget (nestedMetaOf exC5MetaField) "b")) ∧
      dget (fromPythonBase exC5MetaField .pstr) "b" = some (.int 2) ∧
      dget (fromPythonBase exC5MetaField .pstr) "a" = some (.int 1) :=
  ⟨(C5_metadata_merge exC5MetaField .pstr).1 (by decide) "b",
   (C5_metadata_merge exC5MetaField .pstr).2.1 (by decide) "b" (.int 2)
     (by
       show ("b", JVal.int 2) ∈ ([("a", JVal.int 1), ("b", JVal.int 2),
         ("metadata", JVal.obj [("a", JVal.int 1), ("b", JVal.int 10)])] : Dict)
       simp)
     (by decide),
   (C5_metadata_merge exC5MetaField .pstr).2.1 (by decide) "a" (.int 1)
     (by
       show ("a", JVal.int 1) ∈ ([("a", JVal.int 1), ("b", JVal.int 2),
         ("metadata", JVal.obj [("a", JVal.int 1), ("b", JVal.int 10)])] : Dict)
       simp)
     (by decide)⟩

/-! ### Claim C1 — cycle guard lemmas -/

/-- The cycle guard of `_from_nested_schema`: on a direct self-reference
the registration step is skipped entirely — no recursive dump happens (`g`
is never called), the cache is returned unchanged, and only the reference
fragment is produced. -/
theorem fromNestedAux_selfref (g : GFun) (env : Env) (obj : SchemaDesc) (f : Field)
    (cache : Cache) (h : selfRefTarget env obj f = true) :
    fromNestedAux g env obj f cache = .ok (buildNestedFragment f obj.name, cache) := by
  unfold selfRefTarget at h
  cases hn : f.fd.nestedName with
  | none => simp only [hn] at h; exact Bool.noConfusion h
  | some n =>
    simp only [hn] at h
    cases ht : envLookup env n with
    | none => simp only [ht] at h; exact Bool.noConfusion h
    | some t =>
      simp only [ht] at h
      have hname : t.name = obj.name := by simpa using h
      have hcs : nestedCacheStep g env obj f cache t = .ok cache := by
        unfold nestedCacheStep
        rw [if_neg]
        rintro ⟨-, hne⟩
        exact hne hname
      simp only [fromNestedAux, hn, ht, hcs]
      rw [hname]

/-- A `fieldOk` field compiles to a fragment independent of the recursion
hook and leaves the cache untouched. -/
theorem gsffStep_fieldOk (env : Env) (obj : SchemaDesc) (f : Field) (cache : Cache)
    (h : fieldOk env obj f) :
    ∃ v, ∀ g : GFun, gsffStep g env obj f cache = .ok (v, cache) := by
  rcases h with ⟨⟨hj, hm⟩, hs, hL⟩ | ⟨⟨hj, hm⟩, hmt, hsr⟩
  · cases hpt : getPytype f defaultMapping with
    | error e => rw [hpt] at hs; cases hs
    | ok t =>
      cases t with
      | method => rw [hpt] at hs; cases hs
      | ty p =>
        refine ⟨applyValidators f (.obj (fromPythonBase f p)), fun g => ?_⟩
        have hj' : f.fd.jtm = none := Option.isNone_iff_eq_none.mp hj
        have hm' : dget f.fd.metadata "_jsonschema_type_mapping" = none :=
          Option.isNone_iff_eq_none.mp hm
        have hfp : fromPythonTypeAux g env obj f p cache =
            .ok (.obj (fromPythonBase f p), cache) := by
          unfold fromPythonTypeAux
          rw [if_neg hL]
        simp only [gsffStep, hj', hm', hpt, hfp]
  · cases hpt : getPytype f defaultMapping with
    | error e => rw [hpt] at hmt; cases hmt
    | ok t =>
      cases t with
      | ty p => rw [hpt] at hmt; cases hmt
      | method =>
        refine ⟨applyValidators f (buildNestedFragment f obj.name), fun g => ?_⟩
        have hj' : f.fd.jtm = none := Option.isNone_iff_eq_none.mp hj
        have hm' : dget f.fd.metadata "_jsonschema_type_mapping" = none :=
          Option.isNone_iff_eq_none.mp hm
        simp only [gsffStep, hj', hm', hpt, fromNestedAux_selfref g env obj f cache hsr]

theorem insertField_perm (a : String × Field) (l : List (String × Field)) :
    List.Perm (insertField a l) (a :: l) := by
  induction l with
  | nil => rfl
  | cons b bs ih =>
    by_cases h : strLe a.1 b.1 = true
    · rw [insertField, if_pos h]
    · rw [insertField, if_neg h]
      exact (List.Perm.cons b ih).trans (List.Perm.swap a b bs)

theorem sortFields_perm (fs : List (String × Field)) :
    List.Perm (sortFields fs) fs := by
  induction fs with
  | nil => rfl
  | cons a rest ih =>
    simp only [sortFields, List.foldr_cons]
    exact (insertField_perm a _).trans (List.Perm.cons a ih)

/-- Compiling a list of `fieldOk` fields succeeds for every recursion hook
with the same properties dict, leaves the cache unchanged, touches only the
fields' own property keys, and (under unique external names) stores each
field's hook-independent fragment under its name. -/
theorem getPropsAux_fieldOk (env : Env) (obj : SchemaDesc) :
    ∀ (fs : List (String × Field)) (props cache : Dict),
    (∀ kf ∈ fs, fieldOk env obj kf.2) →
    ∃ props',
      (∀ g' : GFun, getPropsAux (gsffStep g') env obj fs props cache = .ok (props', cache)) ∧
      (∀ key, (∀ kf ∈ fs, kf.2.fd.name ≠ key) → dget props' key = dget props key) ∧
      ((fs.map (fun kf => kf.2.fd.name)).Nodup →
        ∀ k f, (k, f) ∈ fs →
          ∃ v, (∀ g' : GFun, gsffStep g' env obj f cache = .ok (v, cache)) ∧
            dget props' f.fd.name = some v) := by
  intro fs
  induction fs with
  | nil =>
    intro props cache _
    exact ⟨props, fun _ => rfl, fun _ _ => rfl, fun _ _ _ h => absurd h (List.not_mem_nil _)⟩
  | cons kf₁ rest ih =>
    intro props cache hok
    obtain ⟨k₁, f₁⟩ := kf₁
    obtain ⟨v₁, hv₁⟩ := gsffStep_fieldOk env obj f₁ cache (hok _ (List.mem_cons_self _ _))
    obtain ⟨props', hp1, hp2, hp3⟩ :=
      ih (dset props f₁.fd.name v₁) cache (fun kf hkf => hok kf (List.mem_cons_of_mem _ hkf))
    refine ⟨props', ?_, ?_, ?_⟩
    · intro g'
      rw [getPropsAux, hv₁ g']
      exact hp1 g'
    · intro key hkey
      rw [hp2 key (fun kf hkf => hkey kf (List.mem_cons_of_mem _ hkf)),
        dget_dset_ne _ (hkey (k₁, f₁) (List.mem_cons_self _ _))]
    · intro hnd k f hmem
      have hnd' : f₁.fd.name ∉ rest.map (fun kf => kf.2.fd.name) ∧
          (rest.map (fun kf => kf.2.fd.name)).Nodup := by
        simpa using hnd
      rcases List.mem_cons.mp hmem with heq | hmem'
      · obtain ⟨rfl, rfl⟩ : k₁ = k ∧ f₁ = f := by
          simpa [Prod.ext_iff] using heq.symm
        refine ⟨v₁, hv₁, ?_⟩
        rw [hp2 f₁.fd.name (fun kf hkf hkfn => hnd'.1 ?_), dget_dset_self]
        exact hkfn ▸ List.mem_map_of_mem (fun kf => kf.2.fd.name) hkf
      · exact hp3 hnd'.2 k f hmem'

/-- The pre-wrap dump of a schema whose fields are all `fieldOk`: succeeds
for every hook, preserves the cache, and characterizes both the data shape
and each field's property fragment. -/
theorem dumpDataAux_fieldOk (env : Env) (obj : SchemaDesc) (cache : Cache)
    (hfields : ∀ kf ∈ obj.fields, fieldOk env obj kf.2) :
    ∃ props data,
      (∀ g' : GFun, dumpDataAux (gsffStep g') env obj cache = .ok (data, cache)) ∧
      dget data "properties" = some (.obj props) ∧
      ((obj.fields.map (fun kf => kf.2.fd.name)).Nodup →
        ∀ k f, (k, f) ∈ obj.fields →
          ∃ v, (∀ g' : GFun, gsffStep g' env obj f cache = .ok (v, cache)) ∧
            dget props f.fd.name = some v) := by
  have hsorted : ∀ kf ∈ sortFields obj.fields, fieldOk env obj kf.2 :=
    fun kf hkf => hfields kf ((mem_sortFields kf obj.fields).mp hkf)
  obtain ⟨props', hp1, _, hp3⟩ :=
    getPropsAux_fieldOk env obj (sortFields obj.fields) [] cache hsorted
  have hnodup_perm : ((sortFields obj.fields).map (fun kf => kf.2.fd.name)).Nodup ↔
      (obj.fields.map (fun kf => kf.2.fd.name)).Nodup :=
    ((sortFields_perm obj.fields).map (fun kf => kf.2.fd.name)).nodup_iff
  refine ⟨props',
    (match getRequired obj with
     | some req => [("properties", JVal.obj props'), ("type", JVal.str "object")] ++
         [("required", JVal.arr (req.map JVal.str))]
     | none => [("properties", JVal.obj props'), ("type", JVal.str "object")]),
    fun g' => ?_, ?_, ?_⟩
  · unfold dumpDataAux
    rw [hp1 g']
  · cases hreq : getRequired obj <;> simp [dget]
  · intro hnd k f hmem
    exact hp3 (hnodup_perm.mpr hnd) k f ((mem_sortFields (k, f) obj.fields).mpr hmem)

/-! ### Claim C1 — divergence of the mutual reference -/

theorem projB_unfold : ({ schemaB with fields := projectFields schemaB.fields mutualFieldB.fd.only mutualFieldB.fd.exclude } : SchemaDesc) = projB := rfl

theorem projA_unfold : ({ schemaA with fields := projectFields schemaA.fields mutualFieldA.fd.only mutualFieldA.fd.exclude } : SchemaDesc) = projA := rfl

/-- One unwinding of the mutual recursion, `B` side: if dumping `projB`
runs out of fuel, compiling the `SchemaB`-nested field of any schema not
itself named `SchemaB` runs out of fuel one unit later. -/
theorem mutual_stepB (fuel : Nat) (o : SchemaDesc) (ho : schemaB.name ≠ o.name)
    (h : dumpDataAux (gsffCore fuel) envAB projB [] = .error .outOfFuel) :
    gsffCore (fuel + 1) envAB o mutualFieldB [] = .error .outOfFuel := by
  show gsffStep (gsffCore fuel) envAB o mutualFieldB [] = .error .outOfFuel
  have hj : mutualFieldB.fd.jtm = none := rfl
  have hm : dget mutualFieldB.fd.metadata "_jsonschema_type_mapping" = none := rfl
  have hpt : getPytype mutualFieldB defaultMapping = .ok .method := rfl
  have hn : mutualFieldB.fd.nestedName = some "SchemaB" := rfl
  have ht : envLookup envAB "SchemaB" = some schemaB := rfl
  have hcs : nestedCacheStep (gsffCore fuel) envAB o mutualFieldB [] schemaB =
      .error .outOfFuel := by
    unfold nestedCacheStep
    rw [if_pos (⟨rfl, ho⟩ :
      (dget ([] : Cache) schemaB.name).isNone = true ∧ schemaB.name ≠ o.name)]
    rw [projB_unfold, h]
  simp only [gsffStep, hj, hm, hpt, fromNestedAux, hn, ht, hcs]

/-- One unwinding of the mutual recursion, `A` side. -/
theorem mutual_stepA (fuel : Nat) (o : SchemaDesc) (ho : schemaA.name ≠ o.name)
    (h : dumpDataAux (gsffCore fuel) envAB projA [] = .error .outOfFuel) :
    gsffCore (fuel + 1) envAB o mutualFieldA [] = .error .outOfFuel := by
  show gsffStep (gsffCore fuel) envAB o mutualFieldA [] = .error .outOfFuel
  have hj : mutualFieldA.fd.jtm = none := rfl
  have hm : dget mutualFieldA.fd.metadata "_jsonschema_type_mapping" = none := rfl
  have hpt : getPytype mutualFieldA defaultMapping = .ok .method := rfl
  have hn : mutualFieldA.fd.nestedName = some "SchemaA" := rfl
  have ht : envLookup envAB "SchemaA" = some schemaA := rfl
  have hcs : nestedCacheStep (gsffCore fuel) envAB o mutualFieldA [] schemaA =
      .error .outOfFuel := by
    unfold nestedCacheStep
    rw [if_pos (⟨rfl, ho⟩ :
      (dget ([] : Cache) schemaA.name).isNone = true ∧ schemaA.name ≠ o.name)]
    rw [projA_unfold, h]
  simp only [gsffStep, hj, hm, hpt, fromNestedAux, hn, ht, hcs]

/-- Every fuel is exhausted on the mutually-referential pair: each nested
dump starts a FRESH instance with an empty cache, so the cycle guard never
fires and the recursion alternates between the two schemas forever. -/
theorem dumpData_mutual_error : ∀ fuel : Nat,
    dumpDataAux (gsffCore fuel) envAB projA [] = .error .outOfFuel ∧
    dumpDataAux (gsffCore fuel) envAB projB [] = .error .outOfFuel := by
  intro fuel
  induction fuel with
  | zero => exact ⟨rfl, rfl⟩
  | succ n ih =>
    constructor
    · have hf := mutual_stepB n projA (by decide) ih.2
      unfold dumpDataAux
      rw [show sortFields projA.fields = [("b", mutualFieldB)] from rfl]
      simp only [getPropsAux, hf]
    · have hf := mutual_stepA n projB (by decide) ih.1
      unfold dumpDataAux
      rw [show sortFields projB.fields = [("a", mutualFieldA)] from rfl]
      simp only [getPropsAux, hf]

/-- The root dump of `SchemaA` exhausts every finite fuel. -/
theorem dumpRoot_mutual_error (fuel : Nat) :
    dumpRoot envAB fuel schemaA [] = .error .outOfFuel := by
  cases fuel with
  | zero => rfl
  | succ n =>
    have hf := mutual_stepB n schemaA (by decide) (dumpData_mutual_error n).2
    unfold dumpRoot dumpSchema dumpDataAux
    rw [show sortFields schemaA.fields = [("b", mutualFieldB)] from rfl]
    simp only [getPropsAux, hf]

/-- **C1** counterexample: the claim asserts termination for
mutually-referential schema graphs, but on the two-schema cycle
`SchemaA ⇄ SchemaB` the top-level compile does not terminate: every
recursion budget is exhausted (in Python, a `RecursionError`), because each
nested compilation starts a fresh instance whose empty cache defeats the
guard. -/
theorem C1_counterexample : ¬ CompileTerminates envAB schemaA := by
  rintro ⟨fuel, out, c, h⟩
  rw [dumpRoot_mutual_error fuel] at h
  cases h

/-- **C1** (amended): for a DIRECTLY self-referential schema — every field
either simple or a direct self-reference — the top-level compile terminates
without unbounded recursion: the same successful document is produced at
every positive recursion budget, since the cycle guard (`name !=
outer_name`) cuts the recursion before any nested dump happens.  The output
contains exactly one `definitions` entry, the schema itself under its own
name, and the self-referencing field's fragment is a `$ref` to it.
Mutually-referential graphs are excluded: on those the compile does not
terminate (see the counterexample). -/
theorem C1_selfref_terminates (env : Env) (obj : SchemaDesc) (fuel : Nat)
    (hfields : ∀ kf ∈ obj.fields, fieldOk env obj kf.2)
    (hnames : (obj.fields.map (fun kf => kf.2.fd.name)).Nodup)
    (k₀ : String) (f₀ : Field) (hmem : (k₀, f₀) ∈ obj.fields)
    (hself : SelfRefField env obj f₀)
    (hmeta : f₀.fd.metadata = []) (hvals : f₀.fd.validators = [])
    (hmany : f₀.fd.many = false)
    (ap : JVal) (hap : resolve_additional_properties obj = .ok ap) :
    ∃ props data,
      dumpRoot env (fuel + 1) obj [] = .ok (.obj
        [("$schema", .str "http://json-schema.org/draft-07/schema#"),
         ("definitions", .obj [(obj.name, .obj data)]),
         ("$ref", .str ("#/definitions/" ++ obj.name))], [(obj.name, .obj data)]) ∧
      dget data "properties" = some (.obj props) ∧
      dget props f₀.fd.name = some (.obj [("type", .str "object"),
        ("$ref", .str ("#/definitions/" ++ obj.name))]) := by
  obtain ⟨props, data, hdump, hprop, hlook⟩ := dumpDataAux_fieldOk env obj [] hfields
  obtain ⟨v, hv, hdget⟩ := hlook hnames k₀ f₀ hmem
  have hv' := hv dummyG
  have hfrag : v = .obj [("type", .str "object"),
      ("$ref", .str ("#/definitions/" ++ obj.name))] := by
    obtain ⟨⟨hj, hm⟩, hmt, hsr⟩ := hself
    have hj' : f₀.fd.jtm = none := Option.isNone_iff_eq_none.mp hj
    have hm' : dget f₀.fd.metadata "_jsonschema_type_mapping" = none :=
      Option.isNone_iff_eq_none.mp hm
    cases hpt : getPytype f₀ defaultMapping with
    | error e => rw [hpt] at hmt; exact Bool.noConfusion hmt
    | ok t =>
      cases t with
      | ty p => rw [hpt] at hmt; exact Bool.noConfusion hmt
      | method =>
        have hstep : gsffStep dummyG env obj f₀ [] =
            .ok (applyValidators f₀ (buildNestedFragment f₀ obj.name), []) := by
          simp only [gsffStep, hj', hm', hpt,
            fromNestedAux_selfref dummyG env obj f₀ [] hsr]
        rw [hstep] at hv'
        simp only [Except.ok.injEq, Prod.mk.injEq] at hv'
        rw [← hv'.1]
        simp [applyValidators, hvals, buildNestedFragment, hmany, effMeta,
          nestedMetaOf, hmeta, copyMeta, dupdate, dget]
  have hg : dumpDataAux (gsffCore (fuel + 1)) env obj [] = .ok (data, []) :=
    hdump (gsffCore fuel)
  refine ⟨props, dset data "additionalProperties" ap, ?_, ?_, by rw [hdget, hfrag]⟩
  · unfold dumpRoot dumpSchema
    rw [hg]
    show wrapRoot obj data [] = _
    unfold wrapRoot
    rw [hap]
    rfl
  · rw [dget_dset_ne _ (by decide), hprop]

/-- **C1** witness at a concrete input: the `TreeNode` schema whose
`parent` field nests `TreeNode` itself compiles at budget `4 + 1`. -/
theorem C1_witness :
    ∃ props data,
      dumpRoot envTree (4 + 1) exTreeSchema [] = .ok (.obj
        [("$schema", .str "http://json-schema.org/draft-07/schema#"),
         ("definitions", .obj [(exTreeSchema.name, .obj data)]),
         ("$ref", .str ("#/definitions/" ++ exTreeSchema.name))],
        [(exTreeSchema.name, .obj data)]) ∧
      dget data "properties" = some (.obj props) ∧
      dget props exTreeParentField.fd.name = some (.obj [("type", .str "object"),
        ("$ref", .str ("#/definitions/" ++ exTreeSchema.name))]) :=
  C1_selfref_terminates envTree exTreeSchema 4
    (by
      intro kf hkf
      rcases List.mem_cons.mp hkf with heq | hkf'
      · rw [heq]
        exact Or.inl ⟨⟨rfl, rfl⟩, rfl, by decide⟩
      · rcases List.mem_cons.mp hkf' with heq | hkf''
        · rw [heq]
          exact Or.inr ⟨⟨rfl, rfl⟩, rfl, rfl⟩
        · exact absurd hkf'' (List.not_mem_nil _))
    (by decide) "parent" exTreeParentField
    (List.mem_cons_of_mem _ (List.mem_cons_self _ _))
    ⟨⟨rfl, rfl⟩, rfl, rfl⟩ rfl rfl rfl (.bool false) rfl

/-! ### Claim C2 — cache-key monotonicity -/

theorem dget_dset_isSome (d : Dict) (k₀ k : String) (v : JVal)
    (h : (dget d k).isSome = true) : (dget (dset d k₀ v) k).isSome = true := by
  rw [dget_dset]
  by_cases hk : k₀ = k <;> simp [hk, h]

theorem dget_dupdate_isSome (b : Dict) : ∀ (a : Dict) (k : String),
    (dget a k).isSome = true → (dget (dupdate a b) k).isSome = true := by
  induction b with
  | nil => intro a k h; simpa [dupdate] using h
  | cons kv rest ih =>
    intro a k h
    rw [dupdate_cons]
    exact ih _ _ (dget_dset_isSome _ _ _ _ h)

theorem getPropsAux_mono {g : GFun} (hg : CacheMono g) (env : Env) (obj : SchemaDesc) :
    ∀ (fs : List (String × Field)) (props cache props' c' : Dict),
    getPropsAux g env obj fs props cache = .ok (props', c') →
    ∀ k, (dget cache k).isSome = true → (dget c' k).isSome = true := by
  intro fs
  induction fs with
  | nil =>
    intro props cache props' c' hok k h
    simp only [getPropsAux, Except.ok.injEq, Prod.mk.injEq] at hok
    exact hok.2 ▸ h
  | cons kf rest ih =>
    intro props cache props' c' hok k h
    obtain ⟨k₁, f₁⟩ := kf
    cases hgf : g env obj f₁ cache with
    | error e => simp only [getPropsAux, hgf] at hok; cases hok
    | ok vc =>
      obtain ⟨v, c₁⟩ := vc
      simp only [getPropsAux, hgf] at hok
      exact ih _ _ _ _ hok k (hg env obj f₁ cache v c₁ hgf k h)

theorem dumpDataAux_mono {g : GFun} (hg : CacheMono g) (env : Env) (obj : SchemaDesc)
    (cache : Cache) (data : Dict) (c' : Cache)
    (hok : dumpDataAux g env obj cache = .ok (data, c')) :
    ∀ k, (dget cache k).isSome = true → (dget c' k).isSome = true := by
  unfold dumpDataAux at hok
  cases hp : getPropsAux g env obj (sortFields obj.fields) [] cache with
  | error e => rw [hp] at hok; cases hok
  | ok pc =>
    obtain ⟨props, c₁⟩ := pc
    rw [hp] at hok
    intro k h
    have hmono := getPropsAux_mono hg env obj _ [] cache props c₁ hp k h
    simp only [Except.ok.injEq, Prod.mk.injEq] at hok
    exact hok.2 ▸ hmono

theorem fromNestedAux_mono (g : GFun) (env : Env) (obj : SchemaDesc) (f : Field)
    (cache : Cache) (v : JVal) (c' : Cache)
    (hok : fromNestedAux g env obj f cache = .ok (v, c')) :
    ∀ k, (dget cache k).isSome = true → (dget c' k).isSome = true := by
  unfold fromNestedAux at hok
  cases hn : f.fd.nestedName with
  | none => simp [hn] at hok
  | some n =>
    simp only [hn] at hok
    cases ht : envLookup env n with
    | none => simp [ht] at hok
    | some t =>
      simp only [ht] at hok
      cases hcs : nestedCacheStep g env obj f cache t with
      | error e => simp [hcs] at hok
      | ok c₁ =>
        simp only [hcs, Except.ok.injEq, Prod.mk.injEq] at hok
        intro k h
        refine hok.2 ▸ ?_
        unfold nestedCacheStep at hcs
        by_cases hcond : (dget cache t.name).isNone = true ∧ t.name ≠ obj.name
        · rw [if_pos hcond] at hcs
          cases hdd : dumpDataAux g env
              { t with fields := projectFields t.fields f.fd.only f.fd.exclude } [] with
          | error e => simp [hdd] at hcs
          | ok wdwc =>
            obtain ⟨wd, wc⟩ := wdwc
            simp only [hdd] at hcs
            cases hap : resolve_additional_properties t with
            | error e => simp [hap] at hcs
            | ok ap =>
              simp only [hap, Except.ok.injEq] at hcs
              rw [← hcs]
              exact dget_dupdate_isSome wc _ k (dget_dset_isSome _ _ _ _ h)
        · rw [if_neg hcond] at hcs
          simp only [Except.ok.injEq] at hcs
          exact hcs ▸ h

theorem gsffStep_mono {g : GFun} (hg : CacheMono g) : CacheMono (gsffStep g) := by
  intro env obj f cache v c' hok k h
  unfold gsffStep at hok
  cases hj : f.fd.jtm with
  | some ov =>
    simp only [hj, Except.ok.injEq, Prod.mk.injEq] at hok
    exact hok.2 ▸ h
  | none =>
    simp only [hj] at hok
    cases hm : dget f.fd.metadata "_jsonschema_type_mapping" with
    | some ov =>
      simp only [hm, Except.ok.injEq, Prod.mk.injEq] at hok
      exact hok.2 ▸ h
    | none =>
      simp only [hm] at hok
      cases hpt : getPytype f defaultMapping with
      | error e => simp [hpt] at hok
      | ok t =>
        cases t with
        | method =>
          simp only [hpt] at hok
          cases hfn : fromNestedAux g env obj f cache with
          | error e => simp [hfn] at hok
          | ok vc =>
            obtain ⟨v₁, c₁⟩ := vc
            simp only [hfn, Except.ok.injEq, Prod.mk.injEq] at hok
            exact hok.2 ▸ fromNestedAux_mono g env obj f cache v₁ c₁ hfn k h
        | ty p =>
          simp only [hpt] at hok
          unfold fromPythonTypeAux at hok
          by_cases hL : "List" ∈ f.fd.classes
          · rw [if_pos hL] at hok
            cases hi : f.inner with
            | none => simp [hi] at hok
            | some fi =>
              simp only [hi] at hok
              cases hgf : g env obj fi cache with
              | error e => simp [hgf] at hok
              | ok vc =>
                obtain ⟨vi, c₁⟩ := vc
                simp only [hgf, Except.ok.injEq, Prod.mk.injEq] at hok
                exact hok.2 ▸ hg env obj fi cache vi c₁ hgf k h
          · rw [if_neg hL] at hok
            simp only [Except.ok.injEq, Prod.mk.injEq] at hok
            exact hok.2 ▸ h

theorem gsffCore_mono : ∀ fuel, CacheMono (gsffCore fuel) := by
  intro fuel
  induction fuel with
  | zero => intro env obj f cache v c' hok; cases hok
  | succ n ih => exact gsffStep_mono ih

/-! ### Claim C2 -/

/-- **C2** counterexample: the registry is NOT fresh per root compilation.
A first dump of `Owner` (which registers `Pet` and `Owner`) leaves the
instance cache populated, and a second root dump on the same instance of
the unrelated schema `Plain` — whose only field nests nothing — exposes the
first dump's `Pet` and `Owner` entries in its own `definitions`. -/
theorem C2_counterexample :
    (Prod.snd <$> dumpRoot envOwner 5 exOwnerSchema []) = .ok exC2CacheAfterFirst ∧
      observesPetAndOwner (dumpRoot envOwner 5 exPlainSchema exC2CacheAfterFirst) = true ∧
      (∀ kf ∈ exPlainSchema.fields, kf.2.fd.nestedName = none) :=
  ⟨rfl, rfl, by decide⟩

/-- **C2** (amended): the `DefinitionsRegistry` is created fresh per
`JSONSchema` INSTANCE (at construction), not per root compilation call, and
it is not discarded by the root wrap step: the wrap exposes the instance
cache itself as the output's `definitions` (first conjunct), and a root
compilation never removes a cache entry, so whatever a previous dump on the
same instance left behind is observable in a later dump's output (second
conjunct). -/
theorem C2_registry_per_instance (env : Env) (fuel : Nat) (obj : SchemaDesc)
    (cache : Cache) (root : JVal) (c' : Cache)
    (hok : dumpRoot env fuel obj cache = .ok (root, c')) :
    rootDefinitions root = some (.obj c') ∧
      (∀ k, (dget cache k).isSome = true → (dget c' k).isSome = true) := by
  unfold dumpRoot dumpSchema at hok
  cases hdd : dumpDataAux (gsffCore fuel) env obj cache with
  | error e => rw [hdd] at hok; cases hok
  | ok dc =>
    obtain ⟨data, c₁⟩ := dc
    rw [hdd] at hok
    have hok' : wrapRoot obj data c₁ = .ok (root, c') := hok
    unfold wrapRoot at hok'
    cases hap : resolve_additional_properties obj with
    | error e => rw [hap] at hok'; cases hok'
    | ok ap =>
      simp only [hap, Except.ok.injEq, Prod.mk.injEq] at hok'
      obtain ⟨hroot, hc⟩ := hok'
      constructor
      · rw [← hroot, ← hc]
        simp [rootDefinitions, dget]
      · intro k h
        have h₁ := dumpDataAux_mono (gsffCore_mono fuel) env obj cache data c₁ hdd k h
        rw [← hc]
        exact dget_dset_isSome _ _ _ _ h₁

/-- **C2** witness at a concrete input: dumping `Owner` on an instance
whose cache held a stray `Legacy` entry exposes that entry — and the final
cache — as the output's `definitions`. -/
theorem C2_witness :
    rootDefinitions exC2RootLegacy = some (.obj exC2CacheLegacy) ∧
      (dget exC2CacheLegacy "Legacy").isSome = true :=
  ⟨(C2_registry_per_instance envOwner 5 exOwnerSchema [("Legacy", .obj [])]
      exC2RootLegacy exC2CacheLegacy rfl).1,
   (C2_registry_per_instance envOwner 5 exOwnerSchema [("Legacy", .obj [])]
      exC2RootLegacy exC2CacheLegacy rfl).2 "Legacy" rfl⟩

end MJS
